import Mathlib

/-!
# Quantity-limit cart validator

A shallow embedding of `extensions/cart-checkout-validation/src/run.js` and the
properties its specification states about it.

The function reads `JSON.parse(validation.metafield.value)`, folds the `mapping`
list into a plain JavaScript object keyed by collection identifier, and then
walks `cart.lines` with two nested `flatMap`s.  The embedding keeps each of these
steps as a separate definition:

* `parseInt`            – the ECMAScript `parseInt(string, 10)` algorithm;
* `JSObject.set/get`    – property assignment and lookup on an object created by
                          the literal `{}` (own properties first, then
                          `Object.prototype`);
* `collectionMappings`  – the `reduce` of line 13–16;
* `lineErrors`          – the body of the outer `flatMap` callback, lines 19–37;
* `run`                 – the exported function.

JavaScript numbers are doubles.  The embedding uses `Int` for the integer values
and a separate `nan`; this is exact for integers of absolute value at most
`2 ^ 53`, which is why the well-formedness predicate bounds the limits by
`maxSafeInteger`.
-/

namespace CartValidation

/-! ## Data model -/

/-- A JavaScript number as far as the validator can produce one: `parseInt`
returns either `NaN` or an integer. -/
inductive JSNumber where
  | nan
  | int (i : Int)
  deriving DecidableEq, Repr

/-- The `qty` field of a mapping entry: `string | number` in the parsed
configuration.  A number is an integer here (the admin editor stores strings,
and a hand-written configuration stores integer literals). -/
inductive Qty where
  | str (s : String)
  | num (n : Int)
  deriving DecidableEq, Repr

/-- One element of `validationData.mapping`: `{ collection, qty }`, of the shape
`{collection: string, qty: string | number}` that the admin editor writes.
Elements of another shape are outside the embedding. -/
structure MappingEntry where
  collection : String
  qty : Qty
  deriving DecidableEq, Repr

/-- One element of `merchandise.product.inCollections`. -/
structure CollectionMembership where
  collectionId : String
  isMember : Bool
  deriving DecidableEq, Repr

/-- The `product` of a merchandise. -/
structure Product where
  inCollections : List CollectionMembership
  deriving DecidableEq, Repr

/-- The `merchandise` of a cart line. -/
structure Merchandise where
  product : Product
  deriving DecidableEq, Repr

/-- One element of `cart.lines`.  The host supplies `quantity` as an integer. -/
structure CartLine where
  quantity : Int
  merchandise : Merchandise
  deriving DecidableEq, Repr

/-- The `cart` of the run input. -/
structure Cart where
  lines : List CartLine
  deriving DecidableEq, Repr

/-- The text of `validation.metafield.value`, represented by what `JSON.parse`
makes of it and what `run` then reads from the parsed value. -/
inductive MetafieldValue where
  /-- The text is not JSON: `JSON.parse` throws a `SyntaxError`. -/
  | notJson
  /-- The text is JSON but the parsed value has no array under `mapping`
  (the value is `null`, a primitive, or `mapping` is missing or not an array):
  reading `.mapping.reduce` throws a `TypeError`. -/
  | withoutMapping
  /-- The text is JSON for an object whose `mapping` is this array. -/
  | withMapping (mapping : List MappingEntry)
  deriving DecidableEq, Repr

/-- The `metafield` of the validation. -/
structure Metafield where
  value : MetafieldValue
  deriving DecidableEq, Repr

/-- The `validation` of the run input. -/
structure Validation where
  metafield : Metafield
  deriving DecidableEq, Repr

/-- The argument of `run`: `{ cart, validation }`. -/
structure RunInput where
  cart : Cart
  validation : Validation
  deriving DecidableEq, Repr

/-- One element of the returned `errors`. -/
structure FunctionError where
  localizedMessage : String
  target : String
  deriving DecidableEq, Repr

/-- The value returned by `run`: an object with the single field `errors`. -/
structure FunctionRunResult where
  errors : List FunctionError
  deriving DecidableEq, Repr

/-- The exceptions `run` can raise. -/
inductive JSError where
  | syntaxError
  | typeError
  deriving DecidableEq, Repr

/-! ## `parseInt(string, 10)` -/

/-- Code points of ECMAScript `StrWhiteSpaceChar` (WhiteSpace and
LineTerminator), which `parseInt` strips from the front of its input. -/
def strWhiteSpaceCodes : List Nat :=
  [0x9, 0xA, 0xB, 0xC, 0xD, 0x20, 0xA0, 0x1680,
   0x2000, 0x2001, 0x2002, 0x2003, 0x2004, 0x2005, 0x2006, 0x2007, 0x2008,
   0x2009, 0x200A, 0x2028, 0x2029, 0x202F, 0x205F, 0x3000, 0xFEFF]

/-- Whether `c` is an ECMAScript `StrWhiteSpaceChar`. -/
def isStrWhiteSpaceChar (c : Char) : Bool :=
  decide (c.toNat ∈ strWhiteSpaceCodes)

/-- Whether `c` is a radix-10 digit. -/
def isRadix10Digit (c : Char) : Bool :=
  decide ('0'.toNat ≤ c.toNat ∧ c.toNat ≤ '9'.toNat)

/-- The mathematical value of a list of radix-10 digits, most significant
first, starting from the accumulator `acc`. -/
def digitsValue (acc : Nat) (ds : List Char) : Nat :=
  ds.foldl (fun n c => n * 10 + (c.toNat - '0'.toNat)) acc

/-- ECMAScript `parseInt(inputString, 10)` on the characters of the string:
strip leading white space, read an optional sign, take the longest run of
radix-10 digits (radix 10 strips no `0x`), and return `NaN` when that run is
empty.  The value is the exact integer of the digits; JavaScript returns the
nearest double, which is the same number for a value of at most `2 ^ 53`. -/
def parseIntChars (cs : List Char) : JSNumber :=
  let trimmed := cs.dropWhile isStrWhiteSpaceChar
  let sign : Int := match trimmed with
    | '-' :: _ => -1
    | _ => 1
  let rest := match trimmed with
    | '-' :: r => r
    | '+' :: r => r
    | r => r
  let z := rest.takeWhile isRadix10Digit
  if z.isEmpty then JSNumber.nan else JSNumber.int (sign * (digitsValue 0 z : Nat))

/-- ECMAScript `parseInt(s, 10)` for a string argument. -/
def parseInt (s : String) : JSNumber :=
  parseIntChars s.data

/-- ECMAScript `ToString` of an integer number of absolute value below
`10 ^ 21`: its decimal numeral, with a leading `-` when negative. -/
def numberToString (n : Int) : String :=
  toString n

/-- The call `parseInt(qty, 10)` of line 14: `parseInt` first applies `ToString`
to an argument that is not a string. -/
def parseIntQty (qty : Qty) : JSNumber :=
  match qty with
  | Qty.str s => parseInt s
  | Qty.num n => parseInt (numberToString n)

/-! ## The lookup object -/

/-- The own properties of the accumulator object of the `reduce`, most recent
assignment first.  All values stored are numbers. -/
abbrev JSObject := List (String × JSNumber)

/-- The names of the function-valued properties every object created by `{}`
inherits from `Object.prototype`. -/
def objectPrototypeMethods : List String :=
  ["constructor", "hasOwnProperty", "isPrototypeOf", "propertyIsEnumerable",
   "toLocaleString", "toString", "valueOf", "__defineGetter__",
   "__defineSetter__", "__lookupGetter__", "__lookupSetter__"]

/-- What a property read `collectionMappings[collectionId]` can evaluate to. -/
inductive JSValue where
  | undefined
  | number (n : JSNumber)
  /-- The object `Object.prototype`, returned by the inherited `__proto__`
  getter. -/
  | prototypeObject
  /-- An inherited method of `Object.prototype`. -/
  | builtinFunction (name : String)
  deriving DecidableEq, Repr

/-- The assignment `acc[key] = v` for a number `v`.  Every key creates or
overwrites an own property, except `__proto__`: that assignment calls the
inherited setter, which ignores a value that is neither an object nor `null`. -/
def JSObject.set (acc : JSObject) (key : String) (v : JSNumber) : JSObject :=
  if key = "__proto__" then acc else (key, v) :: acc

/-- The read `obj[key]`: the own property when there is one, otherwise the
property inherited from `Object.prototype`, otherwise `undefined`. -/
def JSObject.get (obj : JSObject) (key : String) : JSValue :=
  match obj.lookup key with
  | some v => JSValue.number v
  | none =>
    if key = "__proto__" then JSValue.prototypeObject
    else if key ∈ objectPrototypeMethods then JSValue.builtinFunction key
    else JSValue.undefined

/-- The relational comparison `quantity > allowedQty` with a number on the
left.  The right operand is converted to a number: `undefined`, an object and a
function all convert to `NaN`, and every comparison with `NaN` is false. -/
def jsGreaterThan (quantity : Int) (allowedQty : JSValue) : Bool :=
  match allowedQty with
  | JSValue.number (JSNumber.int l) => decide (quantity > l)
  | _ => false

/-- The text a template literal substitutes for a value. -/
def templateString (v : JSValue) : String :=
  match v with
  | JSValue.undefined => "undefined"
  | JSValue.number JSNumber.nan => "NaN"
  | JSValue.number (JSNumber.int l) => numberToString l
  | JSValue.prototypeObject => "[object Object]"
  | JSValue.builtinFunction name => "function " ++ name ++ "() \x7b\n    [native code]\n\x7d"

/-! ## The function -/

/-- Lines 13–16: the `reduce` that builds the lookup object from the mapping
list, starting from `{}`. -/
def collectionMappings (mapping : List MappingEntry) : JSObject :=
  mapping.foldl (fun acc e => acc.set e.collection (parseIntQty e.qty)) []

/-- Lines 25–35: the callback of the inner `flatMap`.  Returning an object
contributes one element, returning `[]` contributes none. -/
def checkCollection (mappings : JSObject) (quantity : Int) (collectionId : String) :
    List FunctionError :=
  let allowedQty := mappings.get collectionId
  if allowedQty ≠ JSValue.undefined ∧ jsGreaterThan quantity allowedQty = true then
    [{ localizedMessage := "Cannot order more than " ++ templateString allowedQty ++ " of the product",
       target := "cart" }]
  else
    []

/-- Lines 19–37: the callback of the outer `flatMap`, applied to one line. -/
def lineErrors (mappings : JSObject) (line : CartLine) : List FunctionError :=
  let collectionIds :=
    (line.merchandise.product.inCollections.filter (fun m => m.isMember)).map
      (fun m => m.collectionId)
  let validationErrors := collectionIds.flatMap (checkCollection mappings line.quantity)
  validationErrors

/-- The exported `run` of `cart-checkout-validation/src/run.js`. -/
def run (input : RunInput) : Except JSError FunctionRunResult :=
  match input.validation.metafield.value with
  | MetafieldValue.notJson => Except.error JSError.syntaxError
  | MetafieldValue.withoutMapping => Except.error JSError.typeError
  | MetafieldValue.withMapping mapping =>
    let mappings := collectionMappings mapping
    let errors := input.cart.lines.flatMap (lineErrors mappings)
    Except.ok { errors := errors }

/-- The run input for a list of cart lines and a parsed mapping list. -/
def mkInput (lines : List CartLine) (mapping : List MappingEntry) : RunInput :=
  { cart := { lines := lines },
    validation := { metafield := { value := MetafieldValue.withMapping mapping } } }

/-- A cart line with the given quantity and collection memberships. -/
def mkLine (quantity : Int) (inCollections : List CollectionMembership) : CartLine :=
  { quantity := quantity, merchandise := { product := { inCollections := inCollections } } }

/-! ## The specification's reading of a configuration -/

/-- `Number.MAX_SAFE_INTEGER`: up to here every integer is a double. -/
def maxSafeInteger : Nat := 2 ^ 53 - 1

/-- The value of a decimal numeral whose digits are listed least significant
first: the sum of `dᵢ * 10 ^ i`. -/
def decimalValue : List Char → Nat
  | [] => 0
  | c :: cs => (c.toNat - 48) + 10 * decimalValue cs

/-- The maximum quantity a `qty` field states, as the specification reads it:
a string must be a decimal integer literal (one or more digits, nothing else),
a number must be a non-negative integer.  Anything else states no limit. -/
def declaredLimit (qty : Qty) : Option Nat :=
  match qty with
  | Qty.str s =>
    if s.data ≠ [] ∧ s.data.all Char.isDigit = true then some (decimalValue s.data.reverse) else none
  | Qty.num n => if 0 ≤ n then some n.toNat else none

/-- A well-formed entry of the limits configuration: the collection identifier
is not the reserved property name `__proto__`, and the quantity states a
non-negative integer that a double holds exactly. -/
def wellFormedEntry (e : MappingEntry) : Bool :=
  decide (e.collection ≠ "__proto__") &&
    match declaredLimit e.qty with
    | some L => decide (L ≤ maxSafeInteger)
    | none => false

/-- A well-formed limits configuration: every entry is well-formed. -/
def WellFormedMapping (mapping : List MappingEntry) : Prop :=
  ∀ e ∈ mapping, wellFormedEntry e = true

instance (mapping : List MappingEntry) : Decidable (WellFormedMapping mapping) :=
  inferInstanceAs (Decidable (∀ e ∈ mapping, wellFormedEntry e = true))

/-- The limit the configuration gives a collection, as the specification reads
it: the mapping list is a map from collection identifier to maximum quantity, a
later entry for an identifier replacing an earlier one. -/
def specLimit (mapping : List MappingEntry) (collectionId : String) : Option Nat :=
  match mapping.reverse.find? (fun e => e.collection = collectionId) with
  | some e => declaredLimit e.qty
  | none => none

/-- The error the specification prescribes for an exceeded limit `L`. -/
def limitError (L : Nat) : FunctionError :=
  { localizedMessage := "Cannot order more than " ++ toString L ++ " of the product",
    target := "cart" }

/-- The errors the specification prescribes for one membership of a line. -/
def referenceMembershipErrors (mapping : List MappingEntry) (quantity : Int)
    (m : CollectionMembership) : List FunctionError :=
  if m.isMember = true then
    match specLimit mapping m.collectionId with
    | some L => if quantity > (L : Int) then [limitError L] else []
    | none => []
  else []

/-- The reference error list of the specification: for each cart line in turn,
for each `inCollections` entry of that line in turn, the errors prescribed for
that membership. -/
def referenceErrors (lines : List CartLine) (mapping : List MappingEntry) :
    List FunctionError :=
  lines.flatMap fun line =>
    line.merchandise.product.inCollections.flatMap
      (referenceMembershipErrors mapping line.quantity)

/-! ## Positions of errors -/

/-- The error, if any, that one `inCollections` entry of a line contributes to
the result: entries with `isMember = false` are filtered out in lines 20–22, the
others go through the callback of lines 25–35. -/
def membershipError (mappings : JSObject) (quantity : Int) (m : CollectionMembership) :
    Option FunctionError :=
  if m.isMember = true then (checkCollection mappings quantity m.collectionId).head? else none

/-- The error, if any, contributed by entry `j` of the `inCollections` of line
`i` of the cart. -/
def errorAt (mappings : JSObject) (lines : List CartLine) (i j : Nat) : Option FunctionError :=
  lines[i]?.bind fun line =>
    line.merchandise.product.inCollections[j]?.bind (membershipError mappings line.quantity)

/-- Position `(i, j)` comes before `(i', j')` in the input: an earlier line, or
the same line and an earlier membership. -/
def positionBefore (p q : Nat × Nat) : Prop :=
  p.1 < q.1 ∨ (p.1 = q.1 ∧ p.2 < q.2)

instance (p q : Nat × Nat) : Decidable (positionBefore p q) :=
  inferInstanceAs (Decidable (p.1 < q.1 ∨ (p.1 = q.1 ∧ p.2 < q.2)))

/-! ## Restricted and unrestricted memberships -/

/-- An `inCollections` entry that restricts nothing under the configuration, as
the specification reads it: the product is not a member, or the collection has
no limit in the mapping. -/
def unrestricted (mapping : List MappingEntry) (m : CollectionMembership) : Bool :=
  !m.isMember || (specLimit mapping m.collectionId).isNone

/-! ## What a line shows to the validator -/

/-- The quantity of a line together with its `inCollections` entries that have
`isMember = true`, in order. -/
def memberView (line : CartLine) : Int × List CollectionMembership :=
  (line.quantity, line.merchandise.product.inCollections.filter (fun m => m.isMember))

/-! ## Quantities without a number -/

/-- Whether a string, after leading white space and one optional sign, begins
with a decimal digit. -/
def hasIntegerPrefix (s : String) : Bool :=
  let trimmed := s.data.dropWhile isStrWhiteSpaceChar
  let rest := match trimmed with
    | '-' :: r => r
    | '+' :: r => r
    | r => r
  match rest with
  | c :: _ => isRadix10Digit c
  | [] => false

/-- The total number of `inCollections` entries of a cart. -/
def membershipCount (lines : List CartLine) : Nat :=
  (lines.map fun line => line.merchandise.product.inCollections.length).sum

/-! ## The function on a heap

`run` is written above as a function of its argument.  To state that it leaves
its argument alone, the same source is embedded once more with the heap made
explicit: objects live at addresses, the literal `{}` of line 16 allocates a new
object, and the assignment of line 14 writes to the object at the address held
by `acc`.  The array methods `reduce`, `flatMap`, `filter` and `map` only read
the arrays they are called on. -/

/-- An object of the heap: the value it was created with (the argument object
graph of a call, or nothing for an object created by `{}`) and the properties
assigned to it since. -/
structure HeapObject where
  payload : Option RunInput
  properties : JSObject
  deriving DecidableEq, Repr

/-- The heap: the object at address `a` is the `a`-th element. -/
abbrev Heap := List HeapObject

/-- Allocation of a new object: its address and the extended heap. -/
def Heap.alloc (h : Heap) (o : HeapObject) : Nat × Heap :=
  (h.length, h ++ [o])

/-- The assignment `obj[key] = v` on the object at `address`, whatever that
object is. -/
def Heap.setProperty (h : Heap) (address : Nat) (key : String) (v : JSNumber) : Heap :=
  match h[address]? with
  | some o => h.set address { o with properties := o.properties.set key v }
  | none => h

/-- The properties assigned to the object at `address`. -/
def Heap.properties (h : Heap) (address : Nat) : JSObject :=
  match h[address]? with
  | some o => o.properties
  | none => []

/-- The exported `run`, called with the address of its argument: the value
returned or raised, and the heap after the call. -/
def runOnHeap (h : Heap) (argument : Nat) : Except JSError FunctionRunResult × Heap :=
  match h[argument]? with
  | none => (Except.error JSError.typeError, h)
  | some o =>
    match o.payload with
    | none => (Except.error JSError.typeError, h)
    | some input =>
      match input.validation.metafield.value with
      | MetafieldValue.notJson => (Except.error JSError.syntaxError, h)
      | MetafieldValue.withoutMapping => (Except.error JSError.typeError, h)
      | MetafieldValue.withMapping mapping =>
        let allocated := h.alloc { payload := none, properties := [] }
        let acc := allocated.1
        let h₂ := mapping.foldl
          (fun heap e => heap.setProperty acc e.collection (parseIntQty e.qty)) allocated.2
        let errors := input.cart.lines.flatMap (lineErrors (h₂.properties acc))
        (Except.ok { errors := errors }, h₂)

end CartValidation

/-!
# Payment customization

A shallow embedding of `extensions/customize-payement-tags/src/run.js`.  Every
level of the input that the optional chain of line 24 guards is an `Option`:
`none` stands for a missing, `null` or `undefined` value.
-/

namespace PaymentCustomization

/-- One element of `customer.hasTags`. -/
structure HasTagResponse where
  hasTag : Bool
  deriving DecidableEq, Repr

/-- The `customer` of a buyer identity. -/
structure Customer where
  hasTags : Option (List HasTagResponse)
  deriving DecidableEq, Repr

/-- The `buyerIdentity` of a cart. -/
structure BuyerIdentity where
  customer : Option Customer
  deriving DecidableEq, Repr

/-- The `cart` of the run input. -/
structure Cart where
  buyerIdentity : Option BuyerIdentity
  deriving DecidableEq, Repr

/-- The argument of `run`. -/
structure RunInput where
  cart : Option Cart
  deriving DecidableEq, Repr

/-- The payload of a `hide` operation. -/
structure HideOperation where
  paymentMethodId : String
  deriving DecidableEq, Repr

/-- One element of the returned `operations`. -/
inductive Operation where
  | hide (hide : HideOperation)
  deriving DecidableEq, Repr

/-- The value returned by `run`. -/
structure FunctionRunResult where
  operations : List Operation
  deriving DecidableEq, Repr

/-- Lines 13–15: the constant `NO_CHANGES`. -/
def NO_CHANGES : FunctionRunResult :=
  { operations := [] }

/-- Line 24: `input?.cart?.buyerIdentity?.customer?.hasTags || []`.  The chain
yields `undefined` as soon as one level is missing, and `undefined || []` is
`[]`; an array, also an empty one, is truthy and is kept. -/
def customerTags (input : Option RunInput) : List HasTagResponse :=
  match (((input.bind fun i => i.cart).bind fun c => c.buyerIdentity).bind
      fun b => b.customer).bind fun c => c.hasTags with
  | some hasTags => hasTags
  | none => []

/-- Line 27: the identifier of the payment method to hide. -/
def hidePaymentMethodID : String :=
  "gid://shopify/PaymentCustomizationPaymentMethod/3"

/-- Truthiness of a string: every string but the empty one. -/
def stringTruthy (s : String) : Bool :=
  decide (s ≠ "")

/-- The exported `run` of `customize-payement-tags/src/run.js`. -/
def run (input : Option RunInput) : FunctionRunResult :=
  let tags := customerTags input
  let hasRestrictedTag := tags.any fun tagInfo => tagInfo.hasTag
  if (hasRestrictedTag && stringTruthy hidePaymentMethodID) = true then
    NO_CHANGES
  else
    { operations := [Operation.hide { paymentMethodId := hidePaymentMethodID }] }

/-- An input in which every level down to `hasTags` is present. -/
def fullInput (hasTags : List HasTagResponse) : Option RunInput :=
  some { cart := some { buyerIdentity := some { customer := some { hasTags := some hasTags } } } }

end PaymentCustomization

/-!
# Discount administration

A shallow embedding of the two validators of `app/routes/app.discount.jsx`,
`validateTag` and `validateDiscountCode`.  A JavaScript string is the list of
its UTF-16 code units; `length`, `slice` and regular expressions without the
`u` flag all work on code units.
-/

namespace DiscountAdmin

/-- The UTF-16 code units of a string: one unit for a character of the Basic
Multilingual Plane, a surrogate pair for any other. -/
def codeUnits (s : String) : List Nat :=
  s.data.flatMap fun c =>
    if c.toNat < 0x10000 then [c.toNat]
    else [0xD800 + (c.toNat - 0x10000) / 0x400, 0xDC00 + (c.toNat - 0x10000) % 0x400]

/-! ## Regular expressions -/

/-- The regular expressions the validators use: the assertions `^` and `$`
(without the `m` flag: start and end of the input), a character class, the
quantifier `+`, and concatenation. -/
inductive Regex where
  | inputStart
  | inputEnd
  | charClass (p : Nat → Bool)
  | plus (r : Regex)
  | seq (r₁ r₂ : Regex)

/-- The end positions of the matches of `r+` that start at `start`, where
`step` gives the end positions of the matches of `r`: one match of `r`, then
any number of further matches.  An iteration that matches the empty string is
not repeated, so every further iteration advances and `fuel` iterations suffice
when `fuel` exceeds the length of the input. -/
def plusEnds (step : Nat → List Nat) : Nat → Nat → List Nat
  | 0, _ => []
  | fuel + 1, start =>
    let first := step start
    first ++ first.flatMap fun p => if start < p then plusEnds step fuel p else []

/-- The end positions of the matches of `r` in `input` that start at position
`start`. -/
def Regex.ends (input : List Nat) : Regex → Nat → List Nat
  | Regex.inputStart, start => if start = 0 then [start] else []
  | Regex.inputEnd, start => if start = input.length then [start] else []
  | Regex.charClass p, start =>
    match input[start]? with
    | some u => if p u = true then [start + 1] else []
    | none => []
  | Regex.plus r, start => plusEnds (fun i => Regex.ends input r i) (input.length + 1) start
  | Regex.seq r₁ r₂, start => (Regex.ends input r₁ start).flatMap fun i => Regex.ends input r₂ i

/-- `RegExp.prototype.test` for a regular expression without flags: whether
there is a match starting at some position of the input. -/
def Regex.test (r : Regex) (input : List Nat) : Bool :=
  (List.range (input.length + 1)).any fun start => !(Regex.ends input r start).isEmpty

/-- The class `[A-Z0-9_]`. -/
def isTagUnit (u : Nat) : Bool :=
  decide (('A'.toNat ≤ u ∧ u ≤ 'Z'.toNat) ∨ ('0'.toNat ≤ u ∧ u ≤ '9'.toNat) ∨ u = '_'.toNat)

/-- The class `\s`: the white space and line terminator code points, the same
set that `parseInt` and `trim` strip. -/
def isWhiteSpaceUnit (u : Nat) : Bool :=
  decide (u ∈ CartValidation.strWhiteSpaceCodes)

/-- The regular expression `/^[A-Z0-9_]+$/`. -/
def tagPattern : Regex :=
  Regex.seq Regex.inputStart (Regex.seq (Regex.plus (Regex.charClass isTagUnit)) Regex.inputEnd)

/-- The regular expression `/\s/`. -/
def whiteSpacePattern : Regex :=
  Regex.charClass isWhiteSpaceUnit

/-- Lines 178–180: `validateTag`. -/
def validateTag (tag : List Nat) : Bool :=
  tagPattern.test tag && !whiteSpacePattern.test tag

/-! ## `validateDiscountCode` -/

/-- The call `s.slice(-2)`: the last two code units, or all of them when there
are fewer. -/
def sliceLastTwo (s : List Nat) : List Nat :=
  s.drop (s.length - 2)

/-- The call `parseInt(s, 10)` on code units.  A lone surrogate is read as the
character U+0000: like it, it is neither white space, nor a sign, nor a digit. -/
def parseIntUnits (s : List Nat) : CartValidation.JSNumber :=
  CartValidation.parseIntChars (s.map Char.ofNat)

/-- The global `isNaN` on a number. -/
def isNaN (n : CartValidation.JSNumber) : Bool :=
  match n with
  | CartValidation.JSNumber.nan => true
  | CartValidation.JSNumber.int _ => false

/-- The comparison `===` of two numbers: `NaN` equals nothing. -/
def strictEquals (a b : CartValidation.JSNumber) : Bool :=
  match a, b with
  | CartValidation.JSNumber.int i, CartValidation.JSNumber.int j => decide (i = j)
  | _, _ => false

/-- Lines 182–199: `validateDiscountCode`.  Both arguments are the strings of
the two text fields. -/
def validateDiscountCode (discountCode discountPercentage : List Nat) : Bool :=
  if discountCode.length < 3 then
    false
  else
    let lastTwoChars := sliceLastTwo discountCode
    let lastTwoDigits := parseIntUnits lastTwoChars
    if discountPercentage.length = 1 then
      let singleDigitDiscount := parseIntUnits discountPercentage
      !isNaN lastTwoDigits && strictEquals lastTwoDigits singleDigitDiscount
    else if discountPercentage.length = 2 then
      let doubleDigitDiscount := parseIntUnits (sliceLastTwo discountPercentage)
      !isNaN lastTwoDigits && strictEquals lastTwoDigits doubleDigitDiscount
    else
      false

/-- Whether a code unit is a decimal digit. -/
def isDigitUnit (u : Nat) : Bool :=
  decide ('0'.toNat ≤ u ∧ u ≤ '9'.toNat)

/-- A character the specification allows in a tag: an uppercase letter `A`–`Z`,
a digit `0`–`9` or an underscore. -/
def isTagChar (c : Char) : Bool :=
  decide (('A' ≤ c ∧ c ≤ 'Z') ∨ ('0' ≤ c ∧ c ≤ '9') ∨ c = '_')

/-- A lowercase letter `a`–`z`. -/
def isLowercaseChar (c : Char) : Bool :=
  decide ('a' ≤ c ∧ c ≤ 'z')

end DiscountAdmin

/-!
## Staged tag discounts

The handlers `handleAddTagDiscount` and `handleRemoveTagDiscount` of
`app/routes/app.discount.jsx` on the React state `stagedTagDiscounts`.  The
conversion of a string to a number (`ToNumber`, applied by `isNaN` and by `>`)
yields a double; it is a parameter of the embedding.
-/

namespace DiscountAdmin

/-- One element of `stagedTagDiscounts`. -/
structure TagDiscount where
  tag : List Nat
  discountCode : List Nat
  discountPercentage : List Nat
  isD12C : Bool
  deriving DecidableEq, Repr

/-- A double: `NaN`, an infinity, or the finite value `m * 2 ^ e`. -/
inductive NumberValue where
  | nan
  | infinity (negative : Bool)
  | finite (m : Int) (e : Int)
  deriving DecidableEq, Repr

/-- Whether a number is `NaN`. -/
def NumberValue.isNaN (x : NumberValue) : Bool :=
  match x with
  | NumberValue.nan => true
  | _ => false

/-- The comparison `x > n` for a number `x` and a natural number `n`. -/
def NumberValue.greaterThan (x : NumberValue) (n : Nat) : Bool :=
  match x with
  | NumberValue.nan => false
  | NumberValue.infinity negative => !negative
  | NumberValue.finite m e =>
    if 0 ≤ e then decide (m * 2 ^ e.toNat > (n : Int))
    else decide (m > (n : Int) * 2 ^ (-e).toNat)

/-- Lines 220–249: `handleAddTagDiscount`, as a function from the staged list
and the form fields to the new staged list.  A string is falsy exactly when it
is empty. -/
def handleAddTagDiscount (toNumber : List Nat → NumberValue)
    (stagedTagDiscounts : List TagDiscount)
    (tag tagDiscountCode tagDiscountPercentage : List Nat) (isD12C : Bool) :
    List TagDiscount :=
  if tag.isEmpty || tagDiscountCode.isEmpty || tagDiscountPercentage.isEmpty then
    stagedTagDiscounts
  else if (toNumber tagDiscountPercentage).isNaN ||
      (toNumber tagDiscountPercentage).greaterThan 25 then
    stagedTagDiscounts
  else if !validateTag tag then
    stagedTagDiscounts
  else if !validateDiscountCode tagDiscountCode tagDiscountPercentage then
    stagedTagDiscounts
  else
    let tagExists := stagedTagDiscounts.any fun discount => decide (discount.tag = tag)
    if tagExists = true then stagedTagDiscounts
    else
      stagedTagDiscounts ++
        [{ tag := tag, discountCode := tagDiscountCode,
           discountPercentage := tagDiscountPercentage, isD12C := isD12C }]

/-- Lines 251–255: `handleRemoveTagDiscount(index)`: the filter keeps the
elements whose position is not `index`. -/
def handleRemoveTagDiscount (stagedTagDiscounts : List TagDiscount) (index : Nat) :
    List TagDiscount :=
  (stagedTagDiscounts.enum.filter fun p => decide (p.1 ≠ index)).map fun p => p.2

/-- The tags of the staged discounts, in order. -/
def stagedTags (stagedTagDiscounts : List TagDiscount) : List (List Nat) :=
  stagedTagDiscounts.map fun discount => discount.tag

/-- A sample conversion, not the built-in one: it reads the plain decimal
numerals and gives `NaN` on every other string, also on those the built-in
`ToNumber` reads (a sign, white space, a fraction, an exponent).  On a numeral
of up to 15 digits, whose value is a double, the two agree. -/
def decimalToNumber (s : List Nat) : NumberValue :=
  if s ≠ [] ∧ s.all isDigitUnit = true then
    NumberValue.finite (s.foldl (fun n u => n * 10 + (u - '0'.toNat)) 0 : Nat) 0
  else NumberValue.nan

end DiscountAdmin

/-!
# Bulk customer tagging

A shallow embedding of the tag check of the `action` of
`app/routes/app._index.jsx` (lines 62–89).  The form fields are taken as the
values the action reads from them: `emails` and `blacklistedTags` as the string
arrays `JSON.parse` yields, `tags` and `actionType` as strings.  The shop's
customer tags are a state `σ` that only `handleTags` changes, through the admin
API; `handleTags` is a parameter here.
-/

namespace CustomerTagging

/-- The call `s.split(",")` on the characters of a string: the pieces between
the commas, in order; a string without a comma is a single piece. -/
def splitOnComma : List Char → List (List Char)
  | [] => [[]]
  | c :: cs =>
    if c = ',' then [] :: splitOnComma cs
    else
      match splitOnComma cs with
      | piece :: pieces => (c :: piece) :: pieces
      | [] => [[c]]

/-- The call `s.trim()`: white space and line terminators are removed from both
ends. -/
def trim (cs : List Char) : List Char :=
  ((cs.dropWhile CartValidation.isStrWhiteSpaceChar).reverse.dropWhile
    CartValidation.isStrWhiteSpaceChar).reverse

/-- Line 68: `formData.get("tags").split(",").map((tag) => tag.trim())`. -/
def requestedTags (tagsField : String) : List String :=
  (splitOnComma tagsField.data).map fun piece => String.mk (trim piece)

/-- The form fields the action reads. -/
structure TagForm where
  actionType : String
  emails : List String
  tags : String
  blacklistedTags : List String
  deriving DecidableEq, Repr

/-- The mutation `handleTags` applies to each customer found. -/
inductive TagMutation where
  | addTagsToCustomer
  | removeTagsFromCustomer
  deriving DecidableEq, Repr

/-- The responses of the action. -/
inductive ActionResponse where
  /-- The response `json({ error }, { status: 400 })`. -/
  | badRequest (error : String)
  /-- The response `json({ success: true, failedEmails })`. -/
  | success (failedEmails : List String)
  /-- The response `json({ error }, { status: 500 })` of the `catch`. -/
  | serverError (error : String)
  deriving DecidableEq, Repr

/-- Line 71: the requested tags that are blacklisted, in request order. -/
def intersectedTags (form : TagForm) : List String :=
  (requestedTags form.tags).filter fun tag => form.blacklistedTags.contains tag

/-- Lines 66–88 of the action: the response and the shop's customer tags after
it.  `handleTags emails tags mutation` either returns the failed emails or
raises, and changes the shop. -/
def action {σ : Type} (handleTags : List String → List String → TagMutation → σ →
    Except String (List String) × σ) (form : TagForm) (shop : σ) : ActionResponse × σ :=
  let tags := requestedTags form.tags
  let intersected := intersectedTags form
  if intersected.length > 0 then
    (ActionResponse.badRequest
      ("The following tags are blacklisted and cannot be used: " ++
        String.intercalate ", " intersected), shop)
  else
    let outcome :=
      if form.actionType = "add" then
        handleTags form.emails tags TagMutation.addTagsToCustomer shop
      else
        handleTags form.emails tags TagMutation.removeTagsFromCustomer shop
    match outcome with
    | (Except.ok failedEmails, shop') => (ActionResponse.success failedEmails, shop')
    | (Except.error message, shop') => (ActionResponse.serverError message, shop')

end CustomerTagging

/-!
## Batched requests

`handleTags` and `executeBatchedRequests` of `app/routes/app._index.jsx` (lines
143–178).  The admin API is a pair of functions: the answer to a customer lookup
depends only on the email, the answer to a tag mutation only on its arguments;
either may fail.  Next to its result, each function returns the requests it
issued, so that what is looked up, and how often, can be stated.
-/

namespace CustomerTagging

/-- The admin API as the tagging code uses it. -/
structure Admin where
  /-- The function `getCustomerIdByEmail`: the identifier of the first customer
  found, `none` for `null`, or a failure. -/
  customerIdByEmail : String → Except String (Option String)
  /-- The functions `addTagsToCustomer` and `removeTagsFromCustomer`. -/
  applyMutation : TagMutation → String → List String → Except String Unit

/-- A request sent to the admin API. -/
inductive ApiCall where
  | customerByEmail (email : String)
  | tagsMutation (mutation : TagMutation) (customerId : String) (tags : List String)
  deriving DecidableEq, Repr

/-- The outcome of `Promise.all` on requests that were all issued: the list of
their values, or a rejection when one of them fails. -/
def promiseAll {α : Type} : List (Except String α) → Except String (List α)
  | [] => Except.ok []
  | r :: rs =>
    match r with
    | Except.error e => Except.error e
    | Except.ok a =>
      match promiseAll rs with
      | Except.ok as => Except.ok (a :: as)
      | Except.error e => Except.error e

/-- The test `if (customerIds[index])`: an identifier that is not `null` and
not the empty string. -/
def customerFound (customerId : Option String) : Bool :=
  match customerId with
  | some id => decide (id ≠ "")
  | none => false

/-- The message of the error `executeBatchedRequests` raises. -/
def requestExecutionError : String :=
  "An error occurred during the request execution."

/-- Lines 158–178: `executeBatchedRequests`: the result, and the requests it
issued.  All lookups of the batch are issued; when they all succeed, a mutation
is issued for each customer found. -/
def executeBatchedRequests (admin : Admin) (batchedEmails : List String)
    (tagsArray : List String) (action : TagMutation) :
    Except String (List String) × List ApiCall :=
  let lookups := batchedEmails.map ApiCall.customerByEmail
  match promiseAll (batchedEmails.map admin.customerIdByEmail) with
  | Except.error _ => (Except.error requestExecutionError, lookups)
  | Except.ok customerIds =>
    let answered := batchedEmails.zip customerIds
    let validCustomerIds := answered.filterMap fun p =>
      if customerFound p.2 = true then p.2 else none
    let failed := answered.filterMap fun p =>
      if customerFound p.2 = true then none else some p.1
    let calls := lookups ++
      validCustomerIds.map fun customerId => ApiCall.tagsMutation action customerId tagsArray
    match promiseAll (validCustomerIds.map fun customerId =>
        admin.applyMutation action customerId tagsArray) with
    | Except.error _ => (Except.error requestExecutionError, calls)
    | Except.ok _ => (Except.ok failed, calls)

/-- The constant `batchSize` of `handleTags`. -/
def batchSize : Nat := 5

/-- The `for` loop of `handleTags`, lines 148–154, with the loop variable `i`,
the accumulated `failedEmails` and the requests issued so far, one list per
batch.  Each iteration advances `i` by `batchSize`; `fuel` bounds the number of
iterations. -/
def handleTagsLoop (admin : Admin) (emails tagsArray : List String) (action : TagMutation) :
    Nat → Nat → List String → List (List ApiCall) →
      Except String (List String) × List (List ApiCall)
  | 0, _, failedEmails, issued => (Except.ok failedEmails, issued)
  | fuel + 1, i, failedEmails, issued =>
    if i < emails.length then
      let batchedEmails := (emails.drop i).take batchSize
      match executeBatchedRequests admin batchedEmails tagsArray action with
      | (Except.ok response, calls) =>
        handleTagsLoop admin emails tagsArray action fuel (i + batchSize)
          (failedEmails ++ response) (issued ++ [calls])
      | (Except.error e, calls) => (Except.error e, issued ++ [calls])
    else (Except.ok failedEmails, issued)

/-- Lines 143–156: `handleTags`.  The loop runs at most once per email. -/
def handleTags (admin : Admin) (emails tagsArray : List String) (action : TagMutation) :
    Except String (List String) × List (List ApiCall) :=
  handleTagsLoop admin emails tagsArray action emails.length 0 [] []

/-- The emails looked up by a list of requests, in the order of the requests. -/
def lookedUp (calls : List ApiCall) : List String :=
  calls.filterMap fun call =>
    match call with
    | ApiCall.customerByEmail email => some email
    | ApiCall.tagsMutation _ _ _ => none

/-- The value a lookup returns, `none` also when it fails. -/
def lookupValue (admin : Admin) (email : String) : Option String :=
  match admin.customerIdByEmail email with
  | Except.ok customerId => customerId
  | Except.error _ => none

/-- Whether the requests made for one email succeed: the lookup does not fail,
and when it finds a customer the mutation for that customer does not fail. -/
def requestsSucceed (admin : Admin) (tagsArray : List String) (action : TagMutation)
    (email : String) : Bool :=
  match admin.customerIdByEmail email with
  | Except.error _ => false
  | Except.ok none => true
  | Except.ok (some customerId) =>
    if customerFound (some customerId) = true then
      match admin.applyMutation action customerId tagsArray with
      | Except.ok _ => true
      | Except.error _ => false
    else true

/-- An admin API whose lookups find the customer `c-` followed by the email for
every email but those listed, and whose mutations succeed or all fail. -/
def sampleAdmin (unknown : List String) (mutationsFail : Bool) : Admin where
  customerIdByEmail := fun email =>
    Except.ok (if unknown.contains email then none else some ("c-" ++ email))
  applyMutation := fun _ _ _ =>
    if mutationsFail = true then Except.error "GraphQL request failed" else Except.ok ()

end CustomerTagging

/-!
# The collection-limit editor

A shallow embedding of the three state handlers of
`app/routes/app.addCollections.jsx`.  The state `updatedCollections` is the list
of mapping entries the editor saves for the validator.
-/

namespace CollectionLimitEditor

/-- The React state `updatedCollections`: the entries `{ collection, qty }`. -/
abbrev Collections := List CartValidation.MappingEntry

/-- Lines 164–175: `handleQuantityChange(newQuantity, collectionId)`; the text
field hands over a string. -/
def handleQuantityChange (updatedCollections : Collections) (newQuantity : String)
    (collectionId : String) : Collections :=
  updatedCollections.map fun collection =>
    if collection.collection = collectionId then
      { collection with qty := CartValidation.Qty.str newQuantity }
    else collection

/-- Lines 178–205: `handleAddCollection`.  `picked` is the identifier of the
first selected collection, or `none` when the picker returns no selection or
fails.  The test for an existing entry reads `updatedCollections`, the state the
handler was created with (line 187); the update is applied to `prev`, the state
at the time of the update (line 199).  The two differ when the state changes
between the click and the answer of the picker, as when the button is clicked
twice before either picker answers. -/
def handleAddCollection (updatedCollections prev : Collections) (picked : Option String) :
    Collections :=
  match picked with
  | none => prev
  | some newCollectionId =>
    let alreadyAdded := updatedCollections.any fun collection =>
      decide (collection.collection = newCollectionId)
    if alreadyAdded = true then prev
    else prev ++ [{ collection := newCollectionId, qty := CartValidation.Qty.str "0" }]

/-- Lines 209–218: `handleRemoveCollection(collectionToRemove)`. -/
def handleRemoveCollection (updatedCollections : Collections) (collectionToRemove : String) :
    Collections :=
  updatedCollections.filter fun entry => decide (entry.collection ≠ collectionToRemove)

/-- The events of the editor that change `updatedCollections`.  The answer of a
resource picker carries `rendered`, the list shown by the render in which the
click on "Add Collection ID" created the handler that now resumes. -/
inductive EditorEvent where
  | pickerAnswered (rendered : Collections) (picked : Option String)
  | quantityChange (newQuantity : String) (collectionId : String)
  | removeCollection (collectionToRemove : String)
  deriving DecidableEq, Repr

/-- One event handled on the current state.  The handlers of the text field and
of the remove button run during the click, on the list just rendered; the
handler of the add button resumes when its picker answers, tests the list of
its own render and appends to the current state. -/
def handle (updatedCollections : Collections) (event : EditorEvent) : Collections :=
  match event with
  | EditorEvent.pickerAnswered rendered picked =>
    handleAddCollection rendered updatedCollections picked
  | EditorEvent.quantityChange newQuantity collectionId =>
    handleQuantityChange updatedCollections newQuantity collectionId
  | EditorEvent.removeCollection collectionToRemove =>
    handleRemoveCollection updatedCollections collectionToRemove

/-- The collection identifiers of the entries, in order. -/
def collectionIds (updatedCollections : Collections) : List String :=
  updatedCollections.map fun entry => entry.collection

end CollectionLimitEditor

/-! # Theorems -/

namespace CartValidation

/-! ## Lemmas on `parseInt` -/

theorem isDigit_eq_isRadix10Digit (c : Char) : c.isDigit = isRadix10Digit c := by
  unfold Char.isDigit isRadix10Digit
  have h0 : ('0' : Char).toNat = 48 := rfl
  have h9 : ('9' : Char).toNat = 57 := rfl
  rw [h0, h9]
  have a : (c.val ≥ 48) ↔ 48 ≤ c.toNat := by
    show (48 : UInt32) ≤ c.val ↔ _
    rw [UInt32.le_def]; rfl
  have b : (c.val ≤ 57) ↔ c.toNat ≤ 57 := by
    rw [UInt32.le_def]; rfl
  simp only [a, b, Bool.decide_and]

theorem isRadix10Digit_iff (c : Char) :
    isRadix10Digit c = true ↔ 48 ≤ c.toNat ∧ c.toNat ≤ 57 := by
  unfold isRadix10Digit
  have h0 : ('0' : Char).toNat = 48 := rfl
  have h9 : ('9' : Char).toNat = 57 := rfl
  rw [h0, h9]; simp

theorem digitsValue_append (acc : Nat) (a b : List Char) :
    digitsValue acc (a ++ b) = digitsValue (digitsValue acc a) b := by
  simp [digitsValue, List.foldl_append]

theorem digitsValue_eq_decimalValue (ds : List Char) (acc : Nat) :
    digitsValue acc ds = acc * 10 ^ ds.length + decimalValue ds.reverse := by
  induction ds using List.reverseRecOn generalizing acc with
  | nil => simp [digitsValue, decimalValue]
  | append_singleton l c ih =>
    rw [digitsValue_append, ih]
    have h0 : ('0' : Char).toNat = 48 := rfl
    simp [digitsValue, decimalValue, h0, pow_succ]
    ring

theorem not_isStrWhiteSpaceChar_of_digit (c : Char) (h : isRadix10Digit c = true) :
    isStrWhiteSpaceChar c = false := by
  rw [isRadix10Digit_iff] at h
  simp only [isStrWhiteSpaceChar, strWhiteSpaceCodes, decide_eq_false_iff_not, List.mem_cons,
    List.mem_singleton, List.not_mem_nil, or_false]
  omega

/-- On a non-empty string of digits `parseInt` returns their value. -/
theorem parseIntChars_of_digits (cs : List Char) (hne : cs ≠ [])
    (hd : ∀ c ∈ cs, isRadix10Digit c = true) :
    parseIntChars cs = JSNumber.int (digitsValue 0 cs : Nat) := by
  cases cs with
  | nil => exact absurd rfl hne
  | cons c t =>
    have hc : isRadix10Digit c = true := hd c (List.mem_cons_self _ _)
    have hw := not_isStrWhiteSpaceChar_of_digit c hc
    have hc' := (isRadix10Digit_iff c).1 hc
    have hm : c ≠ '-' := by
      intro h; rw [h] at hc'; revert hc'; decide
    have hp : c ≠ '+' := by
      intro h; rw [h] at hc'; revert hc'; decide
    have htw : (c :: t).takeWhile isRadix10Digit = c :: t :=
      List.takeWhile_eq_self_iff.2 hd
    unfold parseIntChars
    simp only [List.dropWhile_cons, hw, Bool.false_eq_true, if_false]
    have hsign : (match c :: t with | '-' :: _ => (-1 : Int) | _ => 1) = 1 := by
      split
      · rename_i h; injection h with h1 _; exact absurd h1 hm
      · rfl
    have hrest : (match c :: t with | '-' :: r => r | '+' :: r => r | r => r) = c :: t := by
      split
      · rename_i h; injection h with h1 _; exact absurd h1 hm
      · rename_i h; injection h with h1 _; exact absurd h1 hp
      · rfl
    rw [hsign, hrest, htw]
    simp

theorem digitChar_toNat (k : Nat) (h : k < 10) :
    48 ≤ (Nat.digitChar k).toNat ∧ (Nat.digitChar k).toNat ≤ 57 ∧
      (Nat.digitChar k).toNat - 48 = k := by
  interval_cases k <;> decide

theorem toDigitsCore_append (fuel n : Nat) (ds : List Char) :
    Nat.toDigitsCore 10 fuel n ds = Nat.toDigitsCore 10 fuel n [] ++ ds := by
  induction fuel generalizing n ds with
  | zero => simp [Nat.toDigitsCore]
  | succ f ih =>
    simp only [Nat.toDigitsCore]
    split
    · simp
    · rw [ih (n / 10) (_ :: ds), ih (n / 10) [_]]; simp

theorem toDigitsCore_spec (fuel n : Nat) (h : n < fuel) :
    Nat.toDigitsCore 10 fuel n [] ≠ [] ∧
      (∀ c ∈ Nat.toDigitsCore 10 fuel n [], isRadix10Digit c = true) ∧
      digitsValue 0 (Nat.toDigitsCore 10 fuel n []) = n := by
  induction fuel generalizing n with
  | zero => omega
  | succ f ih =>
    have hk := digitChar_toNat (n % 10) (Nat.mod_lt _ (by decide))
    have hdig : isRadix10Digit (Nat.digitChar (n % 10)) = true :=
      (isRadix10Digit_iff _).2 ⟨hk.1, hk.2.1⟩
    have h0 : ('0' : Char).toNat = 48 := rfl
    simp only [Nat.toDigitsCore]
    split
    · rename_i hz
      refine ⟨by simp, ?_, ?_⟩
      · intro c hc
        rw [List.mem_singleton] at hc
        rw [hc]; exact hdig
      · simp only [digitsValue, List.foldl_cons, List.foldl_nil, h0, hk.2.2]
        omega
    · rename_i hz
      have hlt : n / 10 < f := by omega
      obtain ⟨h1, h2, h3⟩ := ih (n / 10) hlt
      rw [toDigitsCore_append]
      refine ⟨by simp, ?_, ?_⟩
      · intro c hc
        rw [List.mem_append, List.mem_singleton] at hc
        rcases hc with hc | hc
        · exact h2 c hc
        · rw [hc]; exact hdig
      · rw [digitsValue_append, h3]
        simp only [digitsValue, List.foldl_cons, List.foldl_nil, h0, hk.2.2]
        omega

/-- Parsing the decimal numeral of a natural number gives the number back. -/
theorem parseInt_toString_nat (n : Nat) :
    parseInt (toString n) = JSNumber.int (n : Int) := by
  obtain ⟨h1, h2, h3⟩ := toDigitsCore_spec (n + 1) n (Nat.lt_succ_self n)
  show parseIntChars (Nat.toDigits 10 n) = _
  unfold Nat.toDigits
  rw [parseIntChars_of_digits _ h1 h2, h3]

/-- Under a stated limit `L`, line 14 stores the number `L`. -/
theorem parseIntQty_of_declaredLimit (qty : Qty) (L : Nat)
    (h : declaredLimit qty = some L) : parseIntQty qty = JSNumber.int (L : Int) := by
  cases qty with
  | str s =>
    simp only [declaredLimit] at h
    split at h
    · rename_i hs
      injection h with h
      have hd : ∀ c ∈ s.data, isRadix10Digit c = true := by
        intro c hc
        rw [← isDigit_eq_isRadix10Digit]
        exact List.all_eq_true.1 hs.2 c hc
      show parseIntChars s.data = _
      rw [parseIntChars_of_digits _ hs.1 hd, digitsValue_eq_decimalValue, h]
      simp
    · exact absurd h (by simp)
  | num n =>
    simp only [declaredLimit] at h
    split at h
    · rename_i hn
      injection h with h
      show parseInt (numberToString n) = _
      have hn' : n = ((n.toNat : Nat) : Int) := (Int.toNat_of_nonneg hn).symm
      rw [hn', ← h]
      exact parseInt_toString_nat n.toNat
    · exact absurd h (by simp)

/-! ## Lemmas on the lookup object -/

/-- The entry that line 14 stores for a mapping entry. -/
theorem foldl_set_eq (mapping : List MappingEntry) (acc : JSObject) :
    mapping.foldl (fun acc e => acc.set e.collection (parseIntQty e.qty)) acc =
      ((mapping.filter (fun e => decide (e.collection ≠ "__proto__"))).map
        (fun e => (e.collection, parseIntQty e.qty))).reverse ++ acc := by
  induction mapping generalizing acc with
  | nil => simp
  | cons e t ih =>
    rw [List.foldl_cons, ih]
    by_cases h : e.collection = "__proto__"
    · simp [JSObject.set, h, List.filter_cons]
    · simp [JSObject.set, h, List.filter_cons]

/-- The lookup object is the list of stored entries, last assignment first. -/
theorem collectionMappings_eq (mapping : List MappingEntry) :
    collectionMappings mapping =
      ((mapping.filter (fun e => decide (e.collection ≠ "__proto__"))).reverse.map
        (fun e => (e.collection, parseIntQty e.qty))) := by
  unfold collectionMappings
  rw [foldl_set_eq, List.append_nil, List.map_reverse]

theorem lookup_map_entries (key : String) (l : List MappingEntry) :
    List.lookup key (l.map (fun e => (e.collection, parseIntQty e.qty))) =
      (l.find? (fun e => decide (e.collection = key))).map (fun e => parseIntQty e.qty) := by
  induction l with
  | nil => rfl
  | cons e t ih =>
    by_cases h : e.collection = key
    · have hb : (key == e.collection) = true := by simp [h]
      simp [List.lookup_cons, List.find?_cons, h]
    · have hb : (key == e.collection) = false := by
        simp only [beq_eq_false_iff_ne, ne_eq]; exact fun h' => h h'.symm
      simp only [List.map_cons, List.lookup_cons, hb, List.find?_cons, h, decide_False]
      exact ih

/-- Own-property lookup in the object built by the `reduce`: the number parsed
from the last entry for the key, unless the key is `__proto__`. -/
theorem lookup_collectionMappings (mapping : List MappingEntry) (key : String) :
    List.lookup key (collectionMappings mapping) =
      if key = "__proto__" then none
      else (mapping.reverse.find? (fun e => decide (e.collection = key))).map
        (fun e => parseIntQty e.qty) := by
  rw [collectionMappings_eq, lookup_map_entries, ← List.filter_reverse, List.find?_filter]
  by_cases hk : key = "__proto__"
  · rw [if_pos hk]
    have : (fun e : MappingEntry =>
        decide (decide (e.collection ≠ "__proto__") = true ∧ decide (e.collection = key) = true))
        = fun _ => false := by
      funext e
      by_cases he : e.collection = key
      · simp [he, hk]
      · simp [he]
    rw [this]; simp
  · rw [if_neg hk]
    have : (fun e : MappingEntry =>
        decide (decide (e.collection ≠ "__proto__") = true ∧ decide (e.collection = key) = true))
        = fun e => decide (e.collection = key) := by
      funext e
      by_cases he : e.collection = key
      · simp [he, hk]
      · simp [he]
    rw [this]

/-- A value that is not a number never yields an error (it is `undefined`, or
compares as `NaN`). -/
theorem checkCollection_of_lookup_none (mappings : JSObject) (quantity : Int)
    (collectionId : String) (h : List.lookup collectionId mappings = none) :
    checkCollection mappings quantity collectionId = [] := by
  unfold checkCollection JSObject.get
  simp only [h]
  split_ifs <;> simp_all [jsGreaterThan]

theorem checkCollection_of_lookup_nan (mappings : JSObject) (quantity : Int)
    (collectionId : String) (h : List.lookup collectionId mappings = some JSNumber.nan) :
    checkCollection mappings quantity collectionId = [] := by
  unfold checkCollection JSObject.get
  simp [h, jsGreaterThan]

theorem checkCollection_of_lookup_int (mappings : JSObject) (quantity : Int)
    (collectionId : String) (l : Int)
    (h : List.lookup collectionId mappings = some (JSNumber.int l)) :
    checkCollection mappings quantity collectionId =
      if quantity > l then
        [{ localizedMessage := "Cannot order more than " ++ numberToString l ++ " of the product",
           target := "cart" }]
      else [] := by
  unfold checkCollection JSObject.get
  simp [h, jsGreaterThan, templateString]

theorem numberToString_natCast (L : Nat) : numberToString (L : Int) = toString L := rfl

/-- The two nested list operations of a line, as one pass over `inCollections`. -/
theorem lineErrors_eq (mappings : JSObject) (line : CartLine) :
    lineErrors mappings line =
      line.merchandise.product.inCollections.flatMap
        (fun m => if m.isMember = true then checkCollection mappings line.quantity m.collectionId
          else []) := by
  unfold lineErrors
  generalize line.merchandise.product.inCollections = l
  induction l with
  | nil => rfl
  | cons m t ih =>
    by_cases hm : m.isMember = true
    · simp only [List.filter_cons, hm, if_true, List.map_cons, List.flatMap_cons]
      rw [← ih]
    · simp only [List.filter_cons, hm, if_false, List.flatMap_cons, List.nil_append, Bool.false_eq_true]
      exact ih

/-! ## The validator against the reference list -/

theorem declaredLimit_of_wellFormedEntry (e : MappingEntry) (h : wellFormedEntry e = true) :
    e.collection ≠ "__proto__" ∧ ∃ L, declaredLimit e.qty = some L := by
  unfold wellFormedEntry at h
  rw [Bool.and_eq_true] at h
  refine ⟨of_decide_eq_true h.1, ?_⟩
  cases hd : declaredLimit e.qty with
  | none => rw [hd] at h; exact absurd h.2 (by simp)
  | some L => exact ⟨L, rfl⟩

/-- For a well-formed configuration the object built by the `reduce` holds, for
each collection, exactly the limit the specification reads from the list. -/
theorem lookup_of_wellFormed (mapping : List MappingEntry) (hwf : WellFormedMapping mapping)
    (collectionId : String) :
    List.lookup collectionId (collectionMappings mapping) =
      (specLimit mapping collectionId).map (fun (L : Nat) => JSNumber.int (L : Int)) := by
  rw [lookup_collectionMappings]
  unfold specLimit
  cases hf : mapping.reverse.find? (fun e => decide (e.collection = collectionId)) with
  | none => simp
  | some e =>
    have hmem : e ∈ mapping := List.mem_reverse.1 (List.mem_of_find?_eq_some hf)
    have hkey : e.collection = collectionId := by
      have := List.find?_some hf
      exact of_decide_eq_true this
    obtain ⟨hp, L, hL⟩ := declaredLimit_of_wellFormedEntry e (hwf e hmem)
    have hk : ¬ collectionId = "__proto__" := by rw [← hkey]; exact hp
    simp only [if_neg hk, Option.map_some', hL, parseIntQty_of_declaredLimit _ _ hL]

/-- For a well-formed configuration the inner callback emits what the
specification prescribes for a membership with `isMember = true`. -/
theorem checkCollection_of_wellFormed (mapping : List MappingEntry)
    (hwf : WellFormedMapping mapping) (quantity : Int) (m : CollectionMembership) :
    (if m.isMember = true then
        checkCollection (collectionMappings mapping) quantity m.collectionId else []) =
      referenceMembershipErrors mapping quantity m := by
  unfold referenceMembershipErrors
  by_cases hm : m.isMember = true
  · rw [if_pos hm, if_pos hm]
    have hl := lookup_of_wellFormed mapping hwf m.collectionId
    cases hs : specLimit mapping m.collectionId with
    | none =>
      rw [hs] at hl
      exact checkCollection_of_lookup_none _ _ _ hl
    | some L =>
      rw [hs] at hl
      rw [checkCollection_of_lookup_int _ _ _ _ hl, numberToString_natCast]
      rfl
  · rw [if_neg hm, if_neg hm]

theorem run_mkInput (lines : List CartLine) (mapping : List MappingEntry) :
    run (mkInput lines mapping) =
      Except.ok { errors := lines.flatMap (lineErrors (collectionMappings mapping)) } := rfl

theorem flatMap_lineErrors_of_wellFormed (mapping : List MappingEntry)
    (hwf : WellFormedMapping mapping) (lines : List CartLine) :
    lines.flatMap (lineErrors (collectionMappings mapping)) = referenceErrors lines mapping := by
  unfold referenceErrors
  congr 1
  funext line
  rw [lineErrors_eq]
  congr 1
  funext m
  exact checkCollection_of_wellFormed mapping hwf line.quantity m

/-- C1. For every cart and every well-formed limits configuration the errors
returned by `run` are the reference list of the specification: line by line,
membership by membership, one error naming the limit `L` for each membership
with `isMember = true` whose collection has a limit `L` with `quantity > L`, and
nothing else.  In particular a line in two restricted collections of which only
the second is exceeded yields exactly one error, naming the exceeded limit. -/
theorem run_eq_referenceErrors (mapping : List MappingEntry)
    (hwf : WellFormedMapping mapping) :
    (∀ lines : List CartLine,
      run (mkInput lines mapping) = Except.ok { errors := referenceErrors lines mapping }) ∧
    (∀ (quantity : Int) (c₁ c₂ : String) (L₁ L₂ : Nat),
      specLimit mapping c₁ = some L₁ → specLimit mapping c₂ = some L₂ →
      quantity ≤ (L₁ : Int) → (L₂ : Int) < quantity →
      run (mkInput [mkLine quantity [⟨c₁, true⟩, ⟨c₂, true⟩]] mapping) =
        Except.ok { errors := [limitError L₂] }) := by
  have main : ∀ lines : List CartLine,
      run (mkInput lines mapping) = Except.ok { errors := referenceErrors lines mapping } := by
    intro lines
    rw [run_mkInput, flatMap_lineErrors_of_wellFormed mapping hwf]
  refine ⟨main, ?_⟩
  intro quantity c₁ c₂ L₁ L₂ h₁ h₂ hle hlt
  rw [main]
  have hn : ¬ quantity > (L₁ : Int) := not_lt.2 hle
  simp [referenceErrors, referenceMembershipErrors, mkLine, h₁, h₂, hn, hlt]

/-- Scenario 3 of the specification: limits `C1 ↦ 5`, `C2 ↦ 2`, one line of
quantity 3 in both collections; only the limit of `C2` is reported. -/
theorem run_eq_referenceErrors_witness :
    WellFormedMapping [⟨"C1", Qty.str "5"⟩, ⟨"C2", Qty.str "2"⟩] ∧
    run (mkInput [mkLine 3 [⟨"C1", true⟩, ⟨"C2", true⟩]]
        [⟨"C1", Qty.str "5"⟩, ⟨"C2", Qty.str "2"⟩]) =
      Except.ok { errors := [⟨"Cannot order more than 2 of the product", "cart"⟩] } :=
  ⟨by decide,
   (run_eq_referenceErrors [⟨"C1", Qty.str "5"⟩, ⟨"C2", Qty.str "2"⟩] (by decide)).2
      3 "C1" "C2" 5 2 (by decide) (by decide) (by decide) (by decide)⟩

/-! ## Order of the errors -/

/-- Selecting from a list with a partial function: the selected elements are
those at a strictly increasing list of indices. -/
theorem exists_indices_filterMap {α β : Type} (g : α → Option β) (l : List α) :
    ∃ js : List Nat, js.Pairwise (· < ·) ∧
      (∀ j, j ∈ js ↔ (l[j]?.bind g).isSome = true) ∧
      js.map (fun j => l[j]?.bind g) = (l.filterMap g).map some := by
  induction l with
  | nil => exact ⟨[], List.Pairwise.nil, by simp, by simp⟩
  | cons a t ih =>
    obtain ⟨js, hp, hm, he⟩ := ih
    have hshift : (js.map (· + 1)).Pairwise (· < ·) := by
      rw [List.pairwise_map]
      exact hp.imp (fun h => Nat.succ_lt_succ h)
    have hmapshift : (js.map (· + 1)).map (fun j => (a :: t)[j]?.bind g) =
        (t.filterMap g).map some := by
      rw [List.map_map, ← he]
      apply List.map_congr_left
      intro j _
      simp
    cases hg : g a with
    | none =>
      refine ⟨js.map (· + 1), hshift, ?_, ?_⟩
      · intro j
        cases j with
        | zero => simp [hg]
        | succ k => simp [hm k]
      · rw [hmapshift, List.filterMap_cons, hg]
    | some b =>
      refine ⟨0 :: js.map (· + 1), ?_, ?_, ?_⟩
      · rw [List.pairwise_cons]
        refine ⟨?_, hshift⟩
        intro j hj
        rw [List.mem_map] at hj
        obtain ⟨k, _, hk⟩ := hj
        omega
      · intro j
        cases j with
        | zero => simp [hg]
        | succ k => simp [hm k]
      · rw [List.map_cons, hmapshift, List.filterMap_cons, hg]
        simp [hg]

/-- Two nested selections: the selected elements are those at a
lexicographically increasing list of positions. -/
theorem exists_positions_flatMap {α β γ : Type} (f : α → List β) (g : α → β → Option γ)
    (l : List α) :
    ∃ ps : List (Nat × Nat), ps.Pairwise positionBefore ∧
      (∀ i j, (i, j) ∈ ps ↔ (l[i]?.bind fun a => (f a)[j]?.bind (g a)).isSome = true) ∧
      ps.map (fun p => l[p.1]?.bind fun a => (f a)[p.2]?.bind (g a)) =
        (l.flatMap fun a => (f a).filterMap (g a)).map some := by
  induction l with
  | nil => exact ⟨[], List.Pairwise.nil, by simp, by simp⟩
  | cons a t ih =>
    obtain ⟨ps, hp, hm, he⟩ := ih
    obtain ⟨js, hjp, hjm, hje⟩ := exists_indices_filterMap (g a) (f a)
    refine ⟨js.map (fun j => (0, j)) ++ ps.map (fun p => (p.1 + 1, p.2)), ?_, ?_, ?_⟩
    · rw [List.pairwise_append]
      refine ⟨?_, ?_, ?_⟩
      · rw [List.pairwise_map]
        exact hjp.imp (fun h => Or.inr ⟨rfl, h⟩)
      · rw [List.pairwise_map]
        refine hp.imp ?_
        intro p q h
        rcases h with h | ⟨h1, h2⟩
        · exact Or.inl (Nat.succ_lt_succ h)
        · exact Or.inr ⟨congrArg (· + 1) h1, h2⟩
      · intro p hp' q hq'
        rw [List.mem_map] at hp' hq'
        obtain ⟨j, _, rfl⟩ := hp'
        obtain ⟨r, _, rfl⟩ := hq'
        exact Or.inl (Nat.succ_pos _)
    · intro i j
      cases i with
      | zero =>
        simp only [List.mem_append, List.mem_map, Prod.mk.injEq, List.getElem?_cons_zero]
        show _ ↔ ((f a)[j]?.bind (g a)).isSome = true
        rw [← hjm j]
        constructor
        · rintro (⟨k, hk, _, rfl⟩ | ⟨p, _, hp0, _⟩)
          · exact hk
          · omega
        · intro h
          exact Or.inl ⟨j, h, trivial, rfl⟩
      | succ k =>
        simp only [List.mem_append, List.mem_map, Prod.mk.injEq, List.getElem?_cons_succ]
        rw [← hm k j]
        constructor
        · rintro (⟨_, _, h0, _⟩ | ⟨p, hp', hp1, hp2⟩)
          · omega
          · have : p = (k, j) := Prod.ext (by simpa using hp1) hp2
            rw [← this]; exact hp'
        · intro h
          exact Or.inr ⟨(k, j), h, rfl, rfl⟩
    · rw [List.map_append, List.map_map, List.map_map, List.flatMap_cons, List.map_append,
        ← hje, ← he]
      congr 1
      · apply List.map_congr_left
        intro j _
        simp
      · apply List.map_congr_left
        intro q _
        simp

theorem checkCollection_eq_head?_toList (mappings : JSObject) (quantity : Int)
    (collectionId : String) :
    checkCollection mappings quantity collectionId =
      (checkCollection mappings quantity collectionId).head?.toList := by
  unfold checkCollection
  simp only
  split_ifs <;> rfl

/-- A line's errors, one optional error per `inCollections` entry. -/
theorem lineErrors_eq_filterMap (mappings : JSObject) (line : CartLine) :
    lineErrors mappings line =
      line.merchandise.product.inCollections.filterMap
        (membershipError mappings line.quantity) := by
  rw [lineErrors_eq]
  generalize line.merchandise.product.inCollections = l
  induction l with
  | nil => rfl
  | cons m t ih =>
    rw [List.flatMap_cons, ih, List.filterMap_cons]
    unfold membershipError
    by_cases hm : m.isMember = true
    · simp only [hm, if_true]
      rw [checkCollection_eq_head?_toList]
      cases (checkCollection mappings line.quantity m.collectionId).head? <;> rfl
    · simp only [hm, if_false, Bool.false_eq_true]
      rfl

theorem positionBefore_irrefl (p : Nat × Nat) : ¬ positionBefore p p := by
  unfold positionBefore; omega

theorem positionBefore_asymm (p q : Nat × Nat) (h : positionBefore p q) :
    ¬ positionBefore q p := by
  unfold positionBefore at *; omega

/-- C2. The errors returned by `run` are the errors of the violating
(line, membership) positions listed in increasing lexicographic order of the
input: there is a list of positions, increasing line first and membership
second, that holds exactly the positions contributing an error, and the k-th
error of the output is the error of the k-th position.  Hence one error precedes
another in the output exactly when its position precedes the other's in the
input. -/
theorem run_errors_in_input_order (lines : List CartLine) (mapping : List MappingEntry) :
    ∃ positions : List (Nat × Nat), ∃ errors : List FunctionError,
      run (mkInput lines mapping) = Except.ok { errors := errors } ∧
      positions.Pairwise positionBefore ∧
      (∀ i j, (i, j) ∈ positions ↔
        (errorAt (collectionMappings mapping) lines i j).isSome = true) ∧
      positions.map (fun p => errorAt (collectionMappings mapping) lines p.1 p.2) =
        errors.map some ∧
      (∀ (a b : Nat) (p q : Nat × Nat), positions[a]? = some p → positions[b]? = some q →
        (a < b ↔ positionBefore p q)) := by
  obtain ⟨ps, hp, hm, he⟩ := exists_positions_flatMap
    (fun line : CartLine => line.merchandise.product.inCollections)
    (fun line => membershipError (collectionMappings mapping) line.quantity) lines
  refine ⟨ps, lines.flatMap (lineErrors (collectionMappings mapping)), run_mkInput _ _, hp,
    hm, ?_, ?_⟩
  · have : lineErrors (collectionMappings mapping) = fun line =>
        line.merchandise.product.inCollections.filterMap
          (membershipError (collectionMappings mapping) line.quantity) := by
      funext line; exact lineErrors_eq_filterMap _ line
    rw [this]
    exact he
  · intro a b p q ha hb
    obtain ⟨ha', hpa⟩ := List.getElem?_eq_some_iff.1 ha
    obtain ⟨hb', hqb⟩ := List.getElem?_eq_some_iff.1 hb
    have hpw := List.pairwise_iff_getElem.1 hp
    constructor
    · intro hab
      have := hpw a b ha' hb' hab
      rwa [hpa, hqb] at this
    · intro hpq
      by_contra hnot
      rcases Nat.lt_or_eq_of_le (not_lt.1 hnot) with hlt | heq
      · have := hpw b a hb' ha' hlt
        rw [hpa, hqb] at this
        exact positionBefore_asymm _ _ hpq this
      · subst heq
        have : p = q := by rw [← hpa, ← hqb]
        rw [this] at hpq
        exact positionBefore_irrefl _ hpq

/-! ## Boundary, unrestricted collections, several restricted collections -/

theorem referenceMembershipErrors_of_unrestricted (mapping : List MappingEntry)
    (quantity : Int) (m : CollectionMembership) (h : unrestricted mapping m = true) :
    referenceMembershipErrors mapping quantity m = [] := by
  unfold unrestricted at h
  unfold referenceMembershipErrors
  by_cases hm : m.isMember = true
  · rw [if_pos hm]
    cases hs : specLimit mapping m.collectionId with
    | none => rfl
    | some L => simp [hm, hs] at h
  · rw [if_neg hm]

theorem flatMap_reference_of_unrestricted (mapping : List MappingEntry) (quantity : Int)
    (l : List CollectionMembership) (h : ∀ m ∈ l, unrestricted mapping m = true) :
    l.flatMap (referenceMembershipErrors mapping quantity) = [] := by
  induction l with
  | nil => rfl
  | cons m t ih =>
    rw [List.flatMap_cons, referenceMembershipErrors_of_unrestricted _ _ _
      (h m (List.mem_cons_self _ _)), ih (fun x hx => h x (List.mem_cons_of_mem _ hx))]
    rfl

theorem referenceMembershipErrors_member (mapping : List MappingEntry) (quantity : Int)
    (collectionId : String) (L : Nat) (h : specLimit mapping collectionId = some L) :
    referenceMembershipErrors mapping quantity ⟨collectionId, true⟩ =
      if quantity > (L : Int) then [limitError L] else [] := by
  simp [referenceMembershipErrors, h]

theorem run_append (l₁ l₂ : List CartLine) (mapping : List MappingEntry) :
    run (mkInput (l₁ ++ l₂) mapping) =
      Except.ok { errors := l₁.flatMap (lineErrors (collectionMappings mapping)) ++
        l₂.flatMap (lineErrors (collectionMappings mapping)) } := by
  rw [run_mkInput, List.flatMap_append]

/-- C3. Exact boundary: under a well-formed configuration, for a cart of one
line whose only restricted collection has limit `L` (every other entry of its
`inCollections` is a non-member or has no limit), `run` returns no error when
the quantity is `L` and exactly the error naming `L` when the quantity is
`L + 1`. -/
theorem run_exact_boundary (mapping : List MappingEntry) (hwf : WellFormedMapping mapping)
    (collectionId : String) (L : Nat) (before after : List CollectionMembership)
    (hL : specLimit mapping collectionId = some L)
    (hbefore : ∀ m ∈ before, unrestricted mapping m = true)
    (hafter : ∀ m ∈ after, unrestricted mapping m = true) :
    run (mkInput [mkLine (L : Int) (before ++ ⟨collectionId, true⟩ :: after)] mapping) =
        Except.ok { errors := [] } ∧
    run (mkInput [mkLine ((L : Int) + 1) (before ++ ⟨collectionId, true⟩ :: after)] mapping) =
        Except.ok { errors := [limitError L] } := by
  have key : ∀ q : Int,
      run (mkInput [mkLine q (before ++ ⟨collectionId, true⟩ :: after)] mapping) =
        Except.ok { errors := if q > (L : Int) then [limitError L] else [] } := by
    intro q
    rw [run_mkInput, flatMap_lineErrors_of_wellFormed mapping hwf]
    simp only [referenceErrors, List.flatMap_cons, List.flatMap_nil, List.append_nil, mkLine,
      List.flatMap_append, flatMap_reference_of_unrestricted mapping q before hbefore,
      flatMap_reference_of_unrestricted mapping q after hafter,
      referenceMembershipErrors_member mapping q collectionId L hL, List.nil_append]
  constructor
  · rw [key]; simp
  · rw [key]; simp

/-- Scenarios 1 and 2 of the specification: limit `C1 ↦ 5`, a line in `C1` (and
in the unlisted `C9`) with quantity 5, then 6. -/
theorem run_exact_boundary_witness :
    run (mkInput [mkLine 5 [⟨"C9", true⟩, ⟨"C1", true⟩]] [⟨"C1", Qty.str "5"⟩]) =
        Except.ok { errors := [] } ∧
    run (mkInput [mkLine 6 [⟨"C9", true⟩, ⟨"C1", true⟩]] [⟨"C1", Qty.str "5"⟩]) =
        Except.ok { errors := [⟨"Cannot order more than 5 of the product", "cart"⟩] } :=
  run_exact_boundary [⟨"C1", Qty.str "5"⟩] (by decide) "C1" 5 [⟨"C9", true⟩] []
    (by decide) (by decide) (by decide)

/-- A collection identifier that no entry of the mapping list names has no own
property in the lookup object. -/
theorem lookup_of_absent (mapping : List MappingEntry) (collectionId : String)
    (h : ∀ e ∈ mapping, e.collection ≠ collectionId) :
    List.lookup collectionId (collectionMappings mapping) = none := by
  rw [lookup_collectionMappings]
  split_ifs
  · rfl
  · have : mapping.reverse.find? (fun e => decide (e.collection = collectionId)) = none := by
      rw [List.find?_eq_none]
      intro e he
      have := h e (List.mem_reverse.1 he)
      simpa using this
    rw [this]; rfl

theorem lineErrors_of_absent (mapping : List MappingEntry) (line : CartLine)
    (h : ∀ m ∈ line.merchandise.product.inCollections, m.isMember = true →
      ∀ e ∈ mapping, e.collection ≠ m.collectionId) :
    lineErrors (collectionMappings mapping) line = [] := by
  rw [lineErrors_eq]
  generalize line.merchandise.product.inCollections = l at h
  induction l with
  | nil => rfl
  | cons m t ih =>
    rw [List.flatMap_cons, ih (fun x hx => h x (List.mem_cons_of_mem _ hx))]
    by_cases hm : m.isMember = true
    · rw [if_pos hm, checkCollection_of_lookup_none _ _ _
        (lookup_of_absent mapping m.collectionId (h m (List.mem_cons_self _ _) hm))]
      rfl
    · rw [if_neg hm]; rfl

/-- C4. No limit implies no error, for every configuration: a line none of
whose member collections (`isMember = true`) is named by an entry of the mapping
list contributes no error, whatever its quantity: alone in the cart it gives an
empty error list, and inside a cart the result is that of the cart without it.
A membership whose collection identifier is absent from the mapping never
produces an error. -/
theorem run_no_limit_no_error (mapping : List MappingEntry) (line : CartLine)
    (h : ∀ m ∈ line.merchandise.product.inCollections, m.isMember = true →
      ∀ e ∈ mapping, e.collection ≠ m.collectionId) :
    run (mkInput [line] mapping) = Except.ok { errors := [] } ∧
    (∀ before after : List CartLine,
      run (mkInput (before ++ line :: after) mapping) =
        run (mkInput (before ++ after) mapping)) ∧
    (∀ (lines : List CartLine) (i j : Nat), lines[i]? = some line →
      errorAt (collectionMappings mapping) lines i j = none) := by
  have hl := lineErrors_of_absent mapping line h
  refine ⟨?_, ?_, ?_⟩
  · rw [run_mkInput, List.flatMap_cons, hl]; rfl
  · intro before after
    rw [run_append, run_append, List.flatMap_cons, hl, List.nil_append]
  · intro lines i j hi
    unfold errorAt
    rw [hi, Option.some_bind]
    cases hj : line.merchandise.product.inCollections[j]? with
    | none => rfl
    | some m =>
      rw [Option.some_bind]
      unfold membershipError
      by_cases hm : m.isMember = true
      · rw [if_pos hm, checkCollection_of_lookup_none _ _ _
          (lookup_of_absent mapping m.collectionId (h m (List.getElem?_mem hj) hm))]
        rfl
      · rw [if_neg hm]

/-- Scenario 5 of the specification: limit `C1 ↦ 5`, a line of quantity 10 in
the unrelated collection `C9`. -/
theorem run_no_limit_no_error_witness :
    run (mkInput [mkLine 10 [⟨"C9", true⟩]] [⟨"C1", Qty.str "5"⟩]) =
      Except.ok { errors := [] } :=
  (run_no_limit_no_error [⟨"C1", Qty.str "5"⟩] (mkLine 10 [⟨"C9", true⟩]) (by decide)).1

/-- C5. Several restricted collections: under a well-formed configuration, a
cart line that is a member of two collections with limits `L₁` and `L₂` (listed
in that order in `inCollections`, every other entry unrestricted) and whose
quantity exceeds both contributes exactly two errors, the first naming `L₁` and
the second naming `L₂`, between the errors of the lines before it and those of
the lines after it. -/
theorem run_two_restricted_collections (mapping : List MappingEntry)
    (hwf : WellFormedMapping mapping) (c₁ c₂ : String) (L₁ L₂ : Nat) (quantity : Int)
    (a b d : List CollectionMembership) (before after : List CartLine)
    (h₁ : specLimit mapping c₁ = some L₁) (h₂ : specLimit mapping c₂ = some L₂)
    (hq₁ : quantity > (L₁ : Int)) (hq₂ : quantity > (L₂ : Int))
    (ha : ∀ m ∈ a, unrestricted mapping m = true)
    (hb : ∀ m ∈ b, unrestricted mapping m = true)
    (hd : ∀ m ∈ d, unrestricted mapping m = true) :
    ∃ errorsBefore errorsAfter : List FunctionError,
      run (mkInput before mapping) = Except.ok { errors := errorsBefore } ∧
      run (mkInput after mapping) = Except.ok { errors := errorsAfter } ∧
      run (mkInput (before ++
          mkLine quantity (a ++ ⟨c₁, true⟩ :: (b ++ ⟨c₂, true⟩ :: d)) :: after) mapping) =
        Except.ok { errors := errorsBefore ++ [limitError L₁, limitError L₂] ++ errorsAfter } := by
  refine ⟨_, _, run_mkInput _ _, run_mkInput _ _, ?_⟩
  rw [run_append, List.flatMap_cons]
  have hline : lineErrors (collectionMappings mapping)
      (mkLine quantity (a ++ ⟨c₁, true⟩ :: (b ++ ⟨c₂, true⟩ :: d))) =
      [limitError L₁, limitError L₂] := by
    have := flatMap_lineErrors_of_wellFormed mapping hwf
      [mkLine quantity (a ++ ⟨c₁, true⟩ :: (b ++ ⟨c₂, true⟩ :: d))]
    rw [List.flatMap_cons, List.flatMap_nil, List.append_nil] at this
    rw [this]
    simp only [referenceErrors, List.flatMap_cons, List.flatMap_nil, List.append_nil, mkLine,
      List.flatMap_append, flatMap_reference_of_unrestricted mapping quantity a ha,
      flatMap_reference_of_unrestricted mapping quantity b hb,
      flatMap_reference_of_unrestricted mapping quantity d hd,
      referenceMembershipErrors_member mapping quantity c₁ L₁ h₁,
      referenceMembershipErrors_member mapping quantity c₂ L₂ h₂, List.nil_append, if_pos hq₁,
      if_pos hq₂]
    rfl
  rw [hline, List.append_assoc]

/-- Limits `C1 ↦ 5`, `C2 ↦ 2`, a line of quantity 6 in both collections between
an unrestricted line and a line exceeding only `C2`. -/
theorem run_two_restricted_collections_witness :
    run (mkInput [mkLine 9 [⟨"C9", true⟩], mkLine 6 [⟨"C1", true⟩, ⟨"C2", true⟩],
          mkLine 3 [⟨"C2", true⟩]]
        [⟨"C1", Qty.str "5"⟩, ⟨"C2", Qty.str "2"⟩]) =
      Except.ok { errors := [⟨"Cannot order more than 5 of the product", "cart"⟩,
        ⟨"Cannot order more than 2 of the product", "cart"⟩,
        ⟨"Cannot order more than 2 of the product", "cart"⟩] } := by
  obtain ⟨eb, ea, hb, ha, h⟩ := run_two_restricted_collections
    [⟨"C1", Qty.str "5"⟩, ⟨"C2", Qty.str "2"⟩] (by decide) "C1" "C2" 5 2 6 [] [] []
    [mkLine 9 [⟨"C9", true⟩]] [mkLine 3 [⟨"C2", true⟩]]
    (by decide) (by decide) (by decide) (by decide) (by decide) (by decide) (by decide)
  have hb' : eb = [] := by
    have : run (mkInput [mkLine 9 [⟨"C9", true⟩]] [⟨"C1", Qty.str "5"⟩, ⟨"C2", Qty.str "2"⟩]) =
        Except.ok { errors := [] } := by rfl
    rw [this] at hb; injection hb with hb; injection hb with hb; exact hb.symm
  have ha' : ea = [⟨"Cannot order more than 2 of the product", "cart"⟩] := by
    have : run (mkInput [mkLine 3 [⟨"C2", true⟩]] [⟨"C1", Qty.str "5"⟩, ⟨"C2", Qty.str "2"⟩]) =
        Except.ok { errors := [⟨"Cannot order more than 2 of the product", "cart"⟩] } := by rfl
    rw [this] at ha; injection ha with ha; injection ha with ha; exact ha.symm
  rw [hb', ha'] at h
  exact h

/-! ## Memberships that do not count, independence of lines -/

theorem lineErrors_eq_of_memberView (mappings : JSObject) (l l' : CartLine)
    (h : memberView l = memberView l') : lineErrors mappings l = lineErrors mappings l' := by
  unfold memberView at h
  unfold lineErrors
  have h1 := congrArg Prod.fst h
  have h2 := congrArg Prod.snd h
  simp only at h1 h2
  rw [h1, h2]

theorem flatMap_lineErrors_eq_of_memberView (mappings : JSObject) (lines lines' : List CartLine)
    (h : lines.map memberView = lines'.map memberView) :
    lines.flatMap (lineErrors mappings) = lines'.flatMap (lineErrors mappings) := by
  induction lines generalizing lines' with
  | nil =>
    cases lines' with
    | nil => rfl
    | cons b t => simp at h
  | cons a s ih =>
    cases lines' with
    | nil => simp at h
    | cons b t =>
      rw [List.map_cons, List.map_cons, List.cons.injEq] at h
      rw [List.flatMap_cons, List.flatMap_cons, lineErrors_eq_of_memberView _ a b h.1, ih t h.2]

/-- C6. Only memberships with `isMember = true` count: two carts whose lines
have, one by one, the same quantity and the same `isMember = true` entries in
the same order get the same result from `run`, so changing or removing entries
with `isMember = false` changes nothing; and such an entry contributes no error
at its position, whatever the limit of its collection. -/
theorem run_ignores_non_members (validation : Validation) (lines lines' : List CartLine)
    (h : lines.map memberView = lines'.map memberView) :
    run { cart := { lines := lines }, validation := validation } =
      run { cart := { lines := lines' }, validation := validation } ∧
    (∀ (mappings : JSObject) (i j : Nat) (line : CartLine) (m : CollectionMembership),
      lines[i]? = some line → line.merchandise.product.inCollections[j]? = some m →
      m.isMember = false → errorAt mappings lines i j = none) := by
  constructor
  · unfold run
    cases validation.metafield.value with
    | notJson => rfl
    | withoutMapping => rfl
    | withMapping mapping =>
      simp only
      rw [flatMap_lineErrors_eq_of_memberView _ lines lines' h]
  · intro mappings i j line m hi hj hm
    unfold errorAt
    rw [hi, Option.some_bind, hj, Option.some_bind]
    unfold membershipError
    simp [hm]

/-- Limit `C1 ↦ 5` and quantity 6: a non-member entry for `C1` is dropped and
another non-member entry is added; both carts give no error. -/
theorem run_ignores_non_members_witness :
    run (mkInput [mkLine 6 [⟨"C1", false⟩, ⟨"C2", true⟩]] [⟨"C1", Qty.str "5"⟩]) =
      run (mkInput [mkLine 6 [⟨"C2", true⟩, ⟨"C1", false⟩, ⟨"C7", false⟩]]
        [⟨"C1", Qty.str "5"⟩]) ∧
    errorAt (collectionMappings [⟨"C1", Qty.str "5"⟩])
      [mkLine 6 [⟨"C1", false⟩, ⟨"C2", true⟩]] 0 0 = none :=
  ⟨(run_ignores_non_members ⟨⟨MetafieldValue.withMapping [⟨"C1", Qty.str "5"⟩]⟩⟩
      [mkLine 6 [⟨"C1", false⟩, ⟨"C2", true⟩]]
      [mkLine 6 [⟨"C2", true⟩, ⟨"C1", false⟩, ⟨"C7", false⟩]] (by decide)).1,
   (run_ignores_non_members ⟨⟨MetafieldValue.withMapping [⟨"C1", Qty.str "5"⟩]⟩⟩
      [mkLine 6 [⟨"C1", false⟩, ⟨"C2", true⟩]]
      [mkLine 6 [⟨"C2", true⟩, ⟨"C1", false⟩, ⟨"C7", false⟩]] (by decide)).2
      _ 0 0 _ _ rfl rfl rfl⟩

/-- C7. Independence across lines: with the limits fixed, the errors of a cart
are the concatenation of the errors of its parts, `errors (l₁ ++ l₂) =
errors l₁ ++ errors l₂` and `errors [] = []`; so the errors of a cart are the
errors of its lines taken one by one, each depending only on that line and the
limits. -/
theorem run_concat_lines (mapping : List MappingEntry) (l₁ l₂ : List CartLine) :
    ∃ e₁ e₂ : List FunctionError,
      run (mkInput l₁ mapping) = Except.ok { errors := e₁ } ∧
      run (mkInput l₂ mapping) = Except.ok { errors := e₂ } ∧
      run (mkInput (l₁ ++ l₂) mapping) = Except.ok { errors := e₁ ++ e₂ } ∧
      run (mkInput [] mapping) = Except.ok { errors := [] } :=
  ⟨_, _, run_mkInput _ _, run_mkInput _ _, run_append _ _ _, rfl⟩

/-- C8. Reordering lines does not change any verdict: there is one function
from a line to its errors (the result of `run` on the cart of that line alone)
such that `run` on any cart returns the errors of its lines concatenated in cart
order; hence for a permutation of the lines every line contributes the same
sub-list and the two error lists are permutations of each other. -/
theorem run_perm_lines (mapping : List MappingEntry) (lines lines' : List CartLine)
    (h : lines.Perm lines') :
    ∃ f : CartLine → List FunctionError,
      (∀ line, run (mkInput [line] mapping) = Except.ok { errors := f line }) ∧
      run (mkInput lines mapping) = Except.ok { errors := lines.flatMap f } ∧
      run (mkInput lines' mapping) = Except.ok { errors := lines'.flatMap f } ∧
      (lines.flatMap f).Perm (lines'.flatMap f) := by
  refine ⟨lineErrors (collectionMappings mapping), ?_, run_mkInput _ _, run_mkInput _ _,
    List.Perm.flatMap_right _ h⟩
  intro line
  rw [run_mkInput, List.flatMap_cons, List.flatMap_nil, List.append_nil]

/-- Limits `C1 ↦ 5`, `C2 ↦ 2`: swapping two offending lines swaps their
errors. -/
theorem run_perm_lines_witness :
    ∃ f : CartLine → List FunctionError,
      (∀ line, run (mkInput [line] [⟨"C1", Qty.str "5"⟩, ⟨"C2", Qty.str "2"⟩]) =
        Except.ok { errors := f line }) ∧
      run (mkInput [mkLine 6 [⟨"C1", true⟩], mkLine 3 [⟨"C2", true⟩]]
          [⟨"C1", Qty.str "5"⟩, ⟨"C2", Qty.str "2"⟩]) =
        Except.ok { errors :=
          [mkLine 6 [⟨"C1", true⟩], mkLine 3 [⟨"C2", true⟩]].flatMap f } ∧
      run (mkInput [mkLine 3 [⟨"C2", true⟩], mkLine 6 [⟨"C1", true⟩]]
          [⟨"C1", Qty.str "5"⟩, ⟨"C2", Qty.str "2"⟩]) =
        Except.ok { errors :=
          [mkLine 3 [⟨"C2", true⟩], mkLine 6 [⟨"C1", true⟩]].flatMap f } ∧
      ([mkLine 6 [⟨"C1", true⟩], mkLine 3 [⟨"C2", true⟩]].flatMap f).Perm
        ([mkLine 3 [⟨"C2", true⟩], mkLine 6 [⟨"C1", true⟩]].flatMap f) :=
  run_perm_lines [⟨"C1", Qty.str "5"⟩, ⟨"C2", Qty.str "2"⟩]
    [mkLine 6 [⟨"C1", true⟩], mkLine 3 [⟨"C2", true⟩]]
    [mkLine 3 [⟨"C2", true⟩], mkLine 6 [⟨"C1", true⟩]] (List.Perm.swap _ _ _)

/-- C9. Every error in the list returned by `run` has target `"cart"`; the
result is the record with the single field `errors`, whose entries are records
of a `localizedMessage` and a `target`. -/
theorem run_target_cart (input : RunInput) (result : FunctionRunResult)
    (h : run input = Except.ok result) :
    ∀ e ∈ result.errors, e.target = "cart" := by
  unfold run at h
  cases hv : input.validation.metafield.value with
  | notJson => rw [hv] at h; cases h
  | withoutMapping => rw [hv] at h; cases h
  | withMapping mapping =>
    rw [hv] at h
    simp only at h
    injection h with h
    rw [← h]
    intro e he
    simp only [List.mem_flatMap] at he
    obtain ⟨line, _, he⟩ := he
    unfold lineErrors at he
    simp only [List.mem_flatMap] at he
    obtain ⟨c, _, he⟩ := he
    unfold checkCollection at he
    simp only at he
    split_ifs at he
    · rw [List.mem_singleton] at he
      rw [he]
    · cases he

/-- Limit `C1 ↦ 5`, two lines of quantity 6 and 7 in `C1`: both errors have
target `"cart"`. -/
theorem run_target_cart_witness :
    run (mkInput [mkLine 6 [⟨"C1", true⟩], mkLine 7 [⟨"C1", true⟩]] [⟨"C1", Qty.str "5"⟩]) =
      Except.ok { errors := [⟨"Cannot order more than 5 of the product", "cart"⟩,
        ⟨"Cannot order more than 5 of the product", "cart"⟩] } ∧
    ∀ e ∈ [(⟨"Cannot order more than 5 of the product", "cart"⟩ : FunctionError),
        ⟨"Cannot order more than 5 of the product", "cart"⟩], e.target = "cart" :=
  ⟨rfl, run_target_cart
    (mkInput [mkLine 6 [⟨"C1", true⟩], mkLine 7 [⟨"C1", true⟩]] [⟨"C1", Qty.str "5"⟩])
    ⟨[⟨"Cannot order more than 5 of the product", "cart"⟩,
      ⟨"Cannot order more than 5 of the product", "cart"⟩]⟩ rfl⟩

/-! ## Duplicate keys -/

theorem find?_reverse_last (before after : List MappingEntry) (e : MappingEntry)
    (hlast : ∀ e' ∈ after, e'.collection ≠ e.collection) :
    (before ++ e :: after).reverse.find? (fun x => decide (x.collection = e.collection)) =
      some e := by
  rw [List.reverse_append, List.reverse_cons, List.append_assoc, List.find?_append]
  have hnone : after.reverse.find? (fun x => decide (x.collection = e.collection)) = none := by
    rw [List.find?_eq_none]
    intro x hx
    have := hlast x (List.mem_reverse.1 hx)
    simpa using this
  rw [hnone]
  simp

theorem find?_reverse_filter_other (before after : List MappingEntry) (e : MappingEntry)
    (key : String) (hkey : key ≠ e.collection) :
    (before.filter (fun x => decide (x.collection ≠ e.collection)) ++ e :: after).reverse.find?
        (fun x => decide (x.collection = key)) =
      (before ++ e :: after).reverse.find? (fun x => decide (x.collection = key)) := by
  simp only [List.reverse_append, List.find?_append, ← List.filter_reverse, List.find?_filter]
  congr 2
  funext x
  by_cases hx : x.collection = key
  · have : x.collection ≠ e.collection := by rw [hx]; exact hkey
    simp [hx, hkey]
  · simp [hx]

/-- The inner callback reads the lookup object only through own-property
lookup. -/
theorem checkCollection_congr (m₁ m₂ : JSObject) (hm : ∀ key, List.lookup key m₁ = List.lookup key m₂)
    (quantity : Int) (collectionId : String) :
    checkCollection m₁ quantity collectionId = checkCollection m₂ quantity collectionId := by
  unfold checkCollection JSObject.get
  rw [hm collectionId]

theorem lineErrors_congr (m₁ m₂ : JSObject) (hm : ∀ key, List.lookup key m₁ = List.lookup key m₂) :
    lineErrors m₁ = lineErrors m₂ := by
  funext line
  unfold lineErrors
  have : checkCollection m₁ line.quantity = checkCollection m₂ line.quantity := by
    funext c; exact checkCollection_congr m₁ m₂ hm _ c
  rw [this]

/-- C10. Duplicate keys are last-write-wins: when `e` is the last entry of the
mapping list for its collection identifier, the value `run` reads for that
identifier is the one the list `[e]` alone gives, namely the number parsed from
the `qty` of `e` (for every identifier that a plain object stores, that is every
one but `__proto__`); and the earlier entries for that identifier have no effect
on the output: removing them leaves the result of `run` unchanged for every
cart. -/
theorem run_last_write_wins (before after : List MappingEntry) (e : MappingEntry)
    (hlast : ∀ e' ∈ after, e'.collection ≠ e.collection) :
    (collectionMappings (before ++ e :: after)).get e.collection =
        (collectionMappings [e]).get e.collection ∧
    (e.collection ≠ "__proto__" →
      (collectionMappings (before ++ e :: after)).get e.collection =
        JSValue.number (parseIntQty e.qty)) ∧
    (∀ lines : List CartLine,
      run (mkInput lines (before ++ e :: after)) =
        run (mkInput lines
          (before.filter (fun x => decide (x.collection ≠ e.collection)) ++ e :: after))) := by
  have hfull : List.lookup e.collection (collectionMappings (before ++ e :: after)) =
      if e.collection = "__proto__" then none else some (parseIntQty e.qty) := by
    rw [lookup_collectionMappings, find?_reverse_last before after e hlast]
    rfl
  have hone : List.lookup e.collection (collectionMappings [e]) =
      if e.collection = "__proto__" then none else some (parseIntQty e.qty) := by
    have := find?_reverse_last [] [] e (by simp)
    rw [lookup_collectionMappings]
    rw [List.nil_append] at this
    rw [this]
    rfl
  refine ⟨?_, ?_, ?_⟩
  · unfold JSObject.get
    rw [hfull, hone]
  · intro hp
    unfold JSObject.get
    rw [hfull, if_neg hp]
  · intro lines
    rw [run_mkInput, run_mkInput]
    have hm : ∀ key, List.lookup key (collectionMappings (before ++ e :: after)) =
        List.lookup key (collectionMappings
          (before.filter (fun x => decide (x.collection ≠ e.collection)) ++ e :: after)) := by
      intro key
      by_cases hk : key = e.collection
      · rw [hk, lookup_collectionMappings, lookup_collectionMappings,
          find?_reverse_last before after e hlast, find?_reverse_last _ after e hlast]
      · rw [lookup_collectionMappings, lookup_collectionMappings,
          find?_reverse_filter_other before after e key hk]
    rw [lineErrors_congr _ _ hm]

/-- Two entries for `C1`, `"5"` then `"2"`: the limit applied is 2, and the
result is that of the list without the first entry. -/
theorem run_last_write_wins_witness :
    (collectionMappings [⟨"C1", Qty.str "5"⟩, ⟨"C9", Qty.str "7"⟩, ⟨"C1", Qty.str "2"⟩]).get "C1" =
      JSValue.number (JSNumber.int 2) ∧
    run (mkInput [mkLine 3 [⟨"C1", true⟩]]
        [⟨"C1", Qty.str "5"⟩, ⟨"C9", Qty.str "7"⟩, ⟨"C1", Qty.str "2"⟩]) =
      run (mkInput [mkLine 3 [⟨"C1", true⟩]] [⟨"C9", Qty.str "7"⟩, ⟨"C1", Qty.str "2"⟩]) ∧
    run (mkInput [mkLine 3 [⟨"C1", true⟩]]
        [⟨"C1", Qty.str "5"⟩, ⟨"C9", Qty.str "7"⟩, ⟨"C1", Qty.str "2"⟩]) =
      Except.ok { errors := [⟨"Cannot order more than 2 of the product", "cart"⟩] } :=
  ⟨(run_last_write_wins [⟨"C1", Qty.str "5"⟩, ⟨"C9", Qty.str "7"⟩] [] ⟨"C1", Qty.str "2"⟩
      (by decide)).2.1 (by decide),
   (run_last_write_wins [⟨"C1", Qty.str "5"⟩, ⟨"C9", Qty.str "7"⟩] [] ⟨"C1", Qty.str "2"⟩
      (by decide)).2.2 [mkLine 3 [⟨"C1", true⟩]],
   rfl⟩

/-! ## Empty, malformed and unparsable configurations -/

/-- C11. Empty limits: when the mapping list of the configuration is empty,
`run` returns an empty error list for every cart, whatever the quantities and
memberships of its lines. -/
theorem run_empty_mapping (lines : List CartLine) :
    run (mkInput lines []) = Except.ok { errors := [] } := by
  rw [run_mkInput]
  have h : ∀ line : CartLine, lineErrors (collectionMappings []) line = [] := by
    intro line
    apply lineErrors_of_absent
    intro m _ _ e he
    cases he
  have : lines.flatMap (lineErrors (collectionMappings [])) = [] := by
    induction lines with
    | nil => rfl
    | cons a t ih => rw [List.flatMap_cons, h a, ih]; rfl
  rw [this]

/-- What `parseInt` returns depends only on whether the string has an integer
prefix: it is `NaN` exactly when there is none. -/
theorem parseInt_eq_nan_iff (s : String) :
    parseInt s = JSNumber.nan ↔ hasIntegerPrefix s = false := by
  unfold parseInt parseIntChars hasIntegerPrefix
  simp only
  generalize (match s.data.dropWhile isStrWhiteSpaceChar with
    | '-' :: r => r
    | '+' :: r => r
    | r => r) = rest
  cases rest with
  | nil => simp
  | cons c t =>
    by_cases hc : isRadix10Digit c = true
    · simp [List.takeWhile_cons, hc]
    · simp [List.takeWhile_cons, hc]

/-- Two lookup objects that agree on every key, up to the difference between a
missing property and a stored `NaN`, give the same errors. -/
theorem checkCollection_congr_nan (m₁ m₂ : JSObject) (quantity : Int) (collectionId : String)
    (h : List.lookup collectionId m₁ = List.lookup collectionId m₂ ∨
      (List.lookup collectionId m₁ = some JSNumber.nan ∧ List.lookup collectionId m₂ = none)) :
    checkCollection m₁ quantity collectionId = checkCollection m₂ quantity collectionId := by
  rcases h with h | ⟨h₁, h₂⟩
  · unfold checkCollection JSObject.get
    rw [h]
  · rw [checkCollection_of_lookup_nan _ _ _ h₁, checkCollection_of_lookup_none _ _ _ h₂]

theorem lineErrors_congr_nan (m₁ m₂ : JSObject)
    (h : ∀ key, List.lookup key m₁ = List.lookup key m₂ ∨
      (List.lookup key m₁ = some JSNumber.nan ∧ List.lookup key m₂ = none)) :
    lineErrors m₁ = lineErrors m₂ := by
  funext line
  unfold lineErrors
  have : checkCollection m₁ line.quantity = checkCollection m₂ line.quantity := by
    funext c; exact checkCollection_congr_nan m₁ m₂ _ c (h c)
  rw [this]

theorem find?_reverse_remove_other (before after : List MappingEntry) (e : MappingEntry)
    (key : String) (hkey : key ≠ e.collection) :
    (before.filter (fun x => decide (x.collection ≠ e.collection)) ++ after).reverse.find?
        (fun x => decide (x.collection = key)) =
      (before ++ e :: after).reverse.find? (fun x => decide (x.collection = key)) := by
  have he : decide (e.collection = key) = false := by
    simp only [decide_eq_false_iff_not]; exact fun h => hkey h.symm
  simp only [List.reverse_append, List.reverse_cons, List.find?_append, List.find?_cons, he,
    List.find?_nil, ← List.filter_reverse, List.find?_filter, List.append_assoc]
  congr 2
  · simp
    funext x
    by_cases hx : x.collection = key
    · have : x.collection ≠ e.collection := by rw [hx]; exact hkey
      simp [hx, hkey]
    · simp [hx]

/-- C12, as the claim states it, fails: the string `"5abc"` is not a decimal
integer literal, yet `parseInt` reads the number 5 from it and the limit 5 is
enforced; and an entry read as `NaN` does not silence its collection when a
later entry for the same collection states a limit. -/
theorem malformed_limit_counterexample :
    (declaredLimit (Qty.str "5abc") = none ∧
      parseIntQty (Qty.str "5abc") = JSNumber.int 5 ∧
      run (mkInput [mkLine 6 [⟨"C1", true⟩]] [⟨"C1", Qty.str "5abc"⟩]) =
        Except.ok { errors := [⟨"Cannot order more than 5 of the product", "cart"⟩] }) ∧
    (parseIntQty (Qty.str "abc") = JSNumber.nan ∧
      run (mkInput [mkLine 6 [⟨"C1", true⟩]] [⟨"C1", Qty.str "abc"⟩, ⟨"C1", Qty.str "5"⟩]) =
        Except.ok { errors := [⟨"Cannot order more than 5 of the product", "cart"⟩] }) :=
  ⟨⟨by decide, by decide, rfl⟩, by decide, rfl⟩

/-- C12, amended. A mapping entry whose `qty` is a string without an integer
prefix (after leading white space and an optional sign the next character is
not a decimal digit) is read as `NaN`; the comparison `quantity > NaN` is false
for every quantity; when the entry is the last one for its collection, no error
is emitted on account of that collection; and the other entries are enforced
as before: the result of `run` is the one the mapping gives without the entries
for that collection. -/
theorem run_malformed_limit_disabled (before after : List MappingEntry) (e : MappingEntry)
    (s : String) (hq : e.qty = Qty.str s) (hs : hasIntegerPrefix s = false)
    (hlast : ∀ e' ∈ after, e'.collection ≠ e.collection) :
    parseIntQty e.qty = JSNumber.nan ∧
    (∀ quantity : Int, jsGreaterThan quantity (JSValue.number (parseIntQty e.qty)) = false) ∧
    (∀ quantity : Int,
      checkCollection (collectionMappings (before ++ e :: after)) quantity e.collection = []) ∧
    (∀ lines : List CartLine,
      run (mkInput lines (before ++ e :: after)) =
        run (mkInput lines
          (before.filter (fun x => decide (x.collection ≠ e.collection)) ++ after))) := by
  have hnan : parseIntQty e.qty = JSNumber.nan := by
    rw [hq]
    exact (parseInt_eq_nan_iff s).2 hs
  have hfull : List.lookup e.collection (collectionMappings (before ++ e :: after)) =
      if e.collection = "__proto__" then none else some JSNumber.nan := by
    rw [lookup_collectionMappings, find?_reverse_last before after e hlast, Option.map_some',
      hnan]
  have habsent : List.lookup e.collection (collectionMappings
      (before.filter (fun x => decide (x.collection ≠ e.collection)) ++ after)) = none := by
    apply lookup_of_absent
    intro x hx
    rw [List.mem_append, List.mem_filter] at hx
    rcases hx with ⟨_, hx⟩ | hx
    · exact of_decide_eq_true hx
    · exact hlast x hx
  refine ⟨hnan, ?_, ?_, ?_⟩
  · intro quantity
    rw [hnan]; rfl
  · intro quantity
    by_cases hp : e.collection = "__proto__"
    · rw [if_pos hp] at hfull
      exact checkCollection_of_lookup_none _ _ _ hfull
    · rw [if_neg hp] at hfull
      exact checkCollection_of_lookup_nan _ _ _ hfull
  · intro lines
    rw [run_mkInput, run_mkInput]
    have hm : ∀ key, List.lookup key (collectionMappings (before ++ e :: after)) =
          List.lookup key (collectionMappings
            (before.filter (fun x => decide (x.collection ≠ e.collection)) ++ after)) ∨
        (List.lookup key (collectionMappings (before ++ e :: after)) = some JSNumber.nan ∧
          List.lookup key (collectionMappings
            (before.filter (fun x => decide (x.collection ≠ e.collection)) ++ after)) =
            none) := by
      intro key
      by_cases hk : key = e.collection
      · rw [hk, habsent, hfull]
        by_cases hp : e.collection = "__proto__"
        · left; rw [if_pos hp]
        · right; rw [if_neg hp]; exact ⟨rfl, rfl⟩
      · left
        rw [lookup_collectionMappings, lookup_collectionMappings,
          find?_reverse_remove_other before after e key hk]
    rw [lineErrors_congr_nan _ _ hm]

/-- Limits `C1 ↦ "abc"`, `C2 ↦ "2"`: a line of quantity 9 in both collections
gets the error for `C2` only. -/
theorem run_malformed_limit_disabled_witness :
    parseIntQty (Qty.str "abc") = JSNumber.nan ∧
    run (mkInput [mkLine 9 [⟨"C1", true⟩, ⟨"C2", true⟩]]
        [⟨"C1", Qty.str "abc"⟩, ⟨"C2", Qty.str "2"⟩]) =
      run (mkInput [mkLine 9 [⟨"C1", true⟩, ⟨"C2", true⟩]] [⟨"C2", Qty.str "2"⟩]) ∧
    run (mkInput [mkLine 9 [⟨"C1", true⟩, ⟨"C2", true⟩]]
        [⟨"C1", Qty.str "abc"⟩, ⟨"C2", Qty.str "2"⟩]) =
      Except.ok { errors := [⟨"Cannot order more than 2 of the product", "cart"⟩] } :=
  ⟨(run_malformed_limit_disabled [] [⟨"C2", Qty.str "2"⟩] ⟨"C1", Qty.str "abc"⟩ "abc" rfl
      (by decide) (by decide)).1,
   (run_malformed_limit_disabled [] [⟨"C2", Qty.str "2"⟩] ⟨"C1", Qty.str "abc"⟩ "abc" rfl
      (by decide) (by decide)).2.2.2 [mkLine 9 [⟨"C1", true⟩, ⟨"C2", true⟩]],
   rfl⟩

/-- C13. An unparsable configuration is an error, not "no limits": when the
metafield value is not valid JSON, or parses to a value without a mapping list,
`run` raises (a `SyntaxError` in the first case, a `TypeError` in the second),
it returns no result at all, in particular none with an empty error list, and
what it raises does not depend on the cart. -/
theorem run_unparsable_configuration (input : RunInput)
    (h : input.validation.metafield.value = MetafieldValue.notJson ∨
      input.validation.metafield.value = MetafieldValue.withoutMapping) :
    (∃ err, run input = Except.error err) ∧
    (∀ result, run input ≠ Except.ok result) ∧
    (input.validation.metafield.value = MetafieldValue.notJson →
      run input = Except.error JSError.syntaxError) ∧
    (input.validation.metafield.value = MetafieldValue.withoutMapping →
      run input = Except.error JSError.typeError) ∧
    (∀ cart : Cart, run { cart := cart, validation := input.validation } = run input) := by
  have hcart : ∀ cart : Cart,
      run { cart := cart, validation := input.validation } = run input := by
    intro cart
    unfold run
    rcases h with h | h <;> simp only [h]
  rcases h with h | h
  · have hr : run input = Except.error JSError.syntaxError := by
      unfold run; simp only [h]
    refine ⟨⟨_, hr⟩, ?_, fun _ => hr, ?_, hcart⟩
    · intro result hres
      rw [hr] at hres
      cases hres
    · intro h'
      rw [h] at h'
      cases h'
  · have hr : run input = Except.error JSError.typeError := by
      unfold run; simp only [h]
    refine ⟨⟨_, hr⟩, ?_, ?_, fun _ => hr, hcart⟩
    · intro result hres
      rw [hr] at hres
      cases hres
    · intro h'
      rw [h] at h'
      cases h'

/-- A metafield text that is not JSON, with a cart that would violate any
limit. -/
theorem run_unparsable_configuration_witness :
    run { cart := { lines := [mkLine 100 [⟨"C1", true⟩]] },
          validation := { metafield := { value := MetafieldValue.notJson } } } =
      Except.error JSError.syntaxError :=
  (run_unparsable_configuration
    { cart := { lines := [mkLine 100 [⟨"C1", true⟩]] },
      validation := { metafield := { value := MetafieldValue.notJson } } }
    (Or.inl rfl)).2.2.1 rfl

theorem length_checkCollection_le (mappings : JSObject) (quantity : Int) (collectionId : String) :
    (checkCollection mappings quantity collectionId).length ≤ 1 := by
  unfold checkCollection
  simp only
  split_ifs <;> simp

theorem length_lineErrors_le (mappings : JSObject) (line : CartLine) :
    (lineErrors mappings line).length ≤ line.merchandise.product.inCollections.length := by
  rw [lineErrors_eq]
  generalize line.merchandise.product.inCollections = l
  induction l with
  | nil => simp
  | cons m t ih =>
    rw [List.flatMap_cons, List.length_append, List.length_cons]
    have : (if m.isMember = true then checkCollection mappings line.quantity m.collectionId
        else []).length ≤ 1 := by
      split_ifs
      · exact length_checkCollection_le _ _ _
      · simp
    omega

/-- C14. Totality on well-formed input: for every input whose metafield value
is JSON holding a mapping list, and every cart, `run` returns a result and does
not raise; the result is computed by structural recursion over the lines and
their memberships, and it holds at most one error per `inCollections` entry of
the cart. -/
theorem run_total (lines : List CartLine) (mapping : List MappingEntry) :
    ∃ result : FunctionRunResult,
      run (mkInput lines mapping) = Except.ok result ∧
      result.errors.length ≤ membershipCount lines := by
  refine ⟨_, run_mkInput lines mapping, ?_⟩
  show (lines.flatMap (lineErrors (collectionMappings mapping))).length ≤ _
  unfold membershipCount
  induction lines with
  | nil => simp
  | cons a t ih =>
    rw [List.flatMap_cons, List.length_append, List.map_cons, List.sum_cons]
    have := length_lineErrors_le (collectionMappings mapping) a
    omega

/-! ## No deduplication -/

theorem flatMap_reference_replicate (mapping : List MappingEntry) (collectionId : String)
    (L : Nat) (hL : specLimit mapping collectionId = some L) (quantity : Int)
    (hq : quantity > (L : Int)) (l : List CollectionMembership)
    (h : ∀ m ∈ l, m = ⟨collectionId, true⟩ ∨ unrestricted mapping m = true) :
    l.flatMap (referenceMembershipErrors mapping quantity) =
      List.replicate (l.count ⟨collectionId, true⟩) (limitError L) := by
  induction l with
  | nil => rfl
  | cons m t ih =>
    rw [List.flatMap_cons, ih (fun x hx => h x (List.mem_cons_of_mem _ hx))]
    rcases h m (List.mem_cons_self _ _) with hm | hm
    · rw [hm, referenceMembershipErrors_member mapping quantity collectionId L hL, if_pos hq,
        List.count_cons_self, List.replicate_succ]
      rfl
    · have hne : m ≠ ⟨collectionId, true⟩ := by
        intro heq
        rw [heq] at hm
        simp [unrestricted, hL] at hm
      rw [referenceMembershipErrors_of_unrestricted _ _ _ hm, List.count_cons_of_ne (Ne.symm hne)]
      rfl

/-- C16. No deduplication of results: under a well-formed configuration in
which a collection has limit `L`, a line whose quantity exceeds `L` and whose
`inCollections` lists that collection in `k` entries with `isMember = true`
(every other entry unrestricted) gets `k` identical errors; and two lines that
violate the same limit each get their own error. -/
theorem run_no_deduplication (mapping : List MappingEntry) (hwf : WellFormedMapping mapping)
    (collectionId : String) (L : Nat) (hL : specLimit mapping collectionId = some L) :
    (∀ (quantity : Int) (inCollections : List CollectionMembership),
      quantity > (L : Int) →
      (∀ m ∈ inCollections, m = ⟨collectionId, true⟩ ∨ unrestricted mapping m = true) →
      run (mkInput [mkLine quantity inCollections] mapping) =
        Except.ok { errors :=
          List.replicate (inCollections.count ⟨collectionId, true⟩) (limitError L) }) ∧
    (∀ q₁ q₂ : Int, q₁ > (L : Int) → q₂ > (L : Int) →
      run (mkInput [mkLine q₁ [⟨collectionId, true⟩], mkLine q₂ [⟨collectionId, true⟩]]
          mapping) =
        Except.ok { errors := [limitError L, limitError L] }) := by
  constructor
  · intro quantity inCollections hq h
    rw [run_mkInput, flatMap_lineErrors_of_wellFormed mapping hwf]
    simp only [referenceErrors, List.flatMap_cons, List.flatMap_nil, List.append_nil, mkLine]
    rw [flatMap_reference_replicate mapping collectionId L hL quantity hq inCollections h]
  · intro q₁ q₂ h₁ h₂
    rw [run_mkInput, flatMap_lineErrors_of_wellFormed mapping hwf]
    simp only [referenceErrors, List.flatMap_cons, List.flatMap_nil, List.append_nil, mkLine,
      referenceMembershipErrors_member mapping _ collectionId L hL, if_pos h₁, if_pos h₂]
    rfl

/-- Limit `C1 ↦ 5`: a line of quantity 6 that lists `C1` three times (and the
unlisted `C9` once) gets three errors, and two lines in `C1` get one each. -/
theorem run_no_deduplication_witness :
    run (mkInput [mkLine 6 [⟨"C1", true⟩, ⟨"C9", true⟩, ⟨"C1", true⟩, ⟨"C1", true⟩]]
        [⟨"C1", Qty.str "5"⟩]) =
      Except.ok { errors := [⟨"Cannot order more than 5 of the product", "cart"⟩,
        ⟨"Cannot order more than 5 of the product", "cart"⟩,
        ⟨"Cannot order more than 5 of the product", "cart"⟩] } ∧
    run (mkInput [mkLine 6 [⟨"C1", true⟩], mkLine 7 [⟨"C1", true⟩]] [⟨"C1", Qty.str "5"⟩]) =
      Except.ok { errors := [⟨"Cannot order more than 5 of the product", "cart"⟩,
        ⟨"Cannot order more than 5 of the product", "cart"⟩] } :=
  ⟨(run_no_deduplication [⟨"C1", Qty.str "5"⟩] (by decide) "C1" 5 (by decide)).1 6
      [⟨"C1", true⟩, ⟨"C9", true⟩, ⟨"C1", true⟩, ⟨"C1", true⟩] (by decide) (by decide),
   (run_no_deduplication [⟨"C1", Qty.str "5"⟩] (by decide) "C1" 5 (by decide)).2 6 7
      (by decide) (by decide)⟩

/-! ## Purity -/

theorem setProperty_fresh (h : Heap) (o : HeapObject) (key : String) (v : JSNumber) :
    Heap.setProperty (h ++ [o]) h.length key v =
      h ++ [{ o with properties := o.properties.set key v }] := by
  unfold Heap.setProperty
  have hget : (h ++ [o])[h.length]? = some o := by
    rw [List.getElem?_append_right (Nat.le_refl _)]
    simp
  rw [hget]
  simp

/-- The writes of the `reduce` all land in the object allocated for it. -/
theorem foldl_setProperty_fresh (mapping : List MappingEntry) (h : Heap) (p : JSObject) :
    mapping.foldl (fun heap e => Heap.setProperty heap h.length e.collection (parseIntQty e.qty))
        (h ++ [{ payload := none, properties := p }]) =
      h ++ [{ payload := none,
              properties :=
                mapping.foldl (fun acc e => acc.set e.collection (parseIntQty e.qty)) p }] := by
  induction mapping generalizing p with
  | nil => rfl
  | cons e t ih =>
    rw [List.foldl_cons, setProperty_fresh, List.foldl_cons]
    exact ih _

theorem properties_fresh (h : Heap) (o : HeapObject) :
    Heap.properties (h ++ [o]) h.length = o.properties := by
  unfold Heap.properties
  rw [List.getElem?_append_right (Nat.le_refl _)]
  simp

theorem runOnHeap_withMapping (h : Heap) (argument : Nat) (input : RunInput) (extra : JSObject)
    (mapping : List MappingEntry) (harg : h[argument]? = some ⟨some input, extra⟩)
    (hv : input.validation.metafield.value = MetafieldValue.withMapping mapping) :
    runOnHeap h argument =
      (Except.ok { errors := input.cart.lines.flatMap (lineErrors (collectionMappings mapping)) },
       h ++ [{ payload := none, properties := collectionMappings mapping }]) := by
  unfold runOnHeap
  simp only [harg, hv, Heap.alloc]
  rw [foldl_setProperty_fresh, properties_fresh]
  rfl

theorem runOnHeap_spec (h : Heap) (argument : Nat) (input : RunInput) (extra : JSObject)
    (harg : h[argument]? = some ⟨some input, extra⟩) :
    (runOnHeap h argument).1 = run input ∧
      ∃ allocated : List HeapObject, (runOnHeap h argument).2 = h ++ allocated := by
  cases hv : input.validation.metafield.value with
  | notJson =>
    unfold runOnHeap run
    simp only [harg, hv]
    exact ⟨trivial, [], (List.append_nil h).symm⟩
  | withoutMapping =>
    unfold runOnHeap run
    simp only [harg, hv]
    exact ⟨trivial, [], (List.append_nil h).symm⟩
  | withMapping mapping =>
    rw [runOnHeap_withMapping h argument input extra mapping harg hv]
    refine ⟨?_, _, rfl⟩
    unfold run
    simp only [hv]

/-- C15. Purity: called on a heap that holds its argument, `run` returns what
the function of the argument alone returns, so two calls on equal inputs return
equal error lists in the same order, whatever else the heap holds; every object
that was on the heap before the call, the argument included, is unchanged after
it (the lookup object is a new object, and it is the only one written); and a
second call on the heap left by the first returns the same result. -/
theorem run_pure (h : Heap) (argument : Nat) (input : RunInput) (extra : JSObject)
    (harg : h[argument]? = some ⟨some input, extra⟩) :
    (runOnHeap h argument).1 = run input ∧
    (∀ address, address < h.length → (runOnHeap h argument).2[address]? = h[address]?) ∧
    (runOnHeap (runOnHeap h argument).2 argument).1 = (runOnHeap h argument).1 := by
  obtain ⟨hres, allocated, hheap⟩ := runOnHeap_spec h argument input extra harg
  have hframe : ∀ address, address < h.length →
      (runOnHeap h argument).2[address]? = h[address]? := by
    intro address ha
    rw [hheap, List.getElem?_append_left ha]
  refine ⟨hres, hframe, ?_⟩
  have hlt : argument < h.length := (List.getElem?_eq_some_iff.1 harg).1
  have harg' : (runOnHeap h argument).2[argument]? = some ⟨some input, extra⟩ := by
    rw [hframe argument hlt, harg]
  rw [(runOnHeap_spec _ argument input extra harg').1, hres]

/-- A heap holding one argument: limit `C1 ↦ 5` and a line of quantity 6 in
`C1`.  The call returns the error, leaves the argument in place and allocates
the lookup object behind it. -/
theorem run_pure_witness :
    (runOnHeap [⟨some (mkInput [mkLine 6 [⟨"C1", true⟩]] [⟨"C1", Qty.str "5"⟩]), []⟩] 0).1 =
      Except.ok { errors := [⟨"Cannot order more than 5 of the product", "cart"⟩] } ∧
    (runOnHeap [⟨some (mkInput [mkLine 6 [⟨"C1", true⟩]] [⟨"C1", Qty.str "5"⟩]), []⟩] 0).2[0]? =
      some ⟨some (mkInput [mkLine 6 [⟨"C1", true⟩]] [⟨"C1", Qty.str "5"⟩]), []⟩ :=
  ⟨(run_pure [⟨some (mkInput [mkLine 6 [⟨"C1", true⟩]] [⟨"C1", Qty.str "5"⟩]), []⟩] 0
      (mkInput [mkLine 6 [⟨"C1", true⟩]] [⟨"C1", Qty.str "5"⟩]) [] rfl).1.trans rfl,
   (run_pure [⟨some (mkInput [mkLine 6 [⟨"C1", true⟩]] [⟨"C1", Qty.str "5"⟩]), []⟩] 0
      (mkInput [mkLine 6 [⟨"C1", true⟩]] [⟨"C1", Qty.str "5"⟩]) [] rfl).2.1 0 (by decide)⟩

/-! ## A limit of zero, monotonicity in the quantity -/

theorem mem_lineErrors_of_member (mappings : JSObject) (line : CartLine) (collectionId : String)
    (e : FunctionError)
    (hmem : (⟨collectionId, true⟩ : CollectionMembership) ∈
      line.merchandise.product.inCollections)
    (he : e ∈ checkCollection mappings line.quantity collectionId) :
    e ∈ lineErrors mappings line := by
  rw [lineErrors_eq, List.mem_flatMap]
  exact ⟨⟨collectionId, true⟩, hmem, by simpa using he⟩

/-- C25. A limit of 0 blocks every purchase: when the last entry of the mapping
for a collection has the qty `"0"` (the value the admin editor gives a newly
added collection), the value `run` reads for the collection is the number 0, not
`undefined`, and every cart line with quantity at least 1 that is a member of
the collection makes `run` emit the error "Cannot order more than 0 of the
product". -/
theorem run_zero_limit_blocks (before after : List MappingEntry) (collectionId : String)
    (hlast : ∀ e ∈ after, e.collection ≠ collectionId)
    (hkey : collectionId ≠ "__proto__")
    (quantity : Int) (hq : 1 ≤ quantity) (inCollections : List CollectionMembership)
    (hmem : (⟨collectionId, true⟩ : CollectionMembership) ∈ inCollections)
    (linesBefore linesAfter : List CartLine) :
    (collectionMappings (before ++ ⟨collectionId, Qty.str "0"⟩ :: after)).get collectionId =
      JSValue.number (JSNumber.int 0) ∧
    ∃ errors : List FunctionError,
      run (mkInput (linesBefore ++ mkLine quantity inCollections :: linesAfter)
        (before ++ ⟨collectionId, Qty.str "0"⟩ :: after)) = Except.ok { errors := errors } ∧
      (⟨"Cannot order more than 0 of the product", "cart"⟩ : FunctionError) ∈ errors := by
  have hlookup : List.lookup collectionId
      (collectionMappings (before ++ ⟨collectionId, Qty.str "0"⟩ :: after)) =
      some (JSNumber.int 0) := by
    rw [lookup_collectionMappings, if_neg hkey]
    have := find?_reverse_last before after ⟨collectionId, Qty.str "0"⟩ hlast
    simp only at this
    rw [this]
    rfl
  constructor
  · unfold JSObject.get
    rw [hlookup]
  · refine ⟨_, run_mkInput _ _, ?_⟩
    rw [List.flatMap_append, List.flatMap_cons, List.mem_append, List.mem_append]
    right; left
    apply mem_lineErrors_of_member _ _ collectionId _ hmem
    rw [checkCollection_of_lookup_int _ _ _ 0 hlookup]
    have hpos : (mkLine quantity inCollections).quantity > 0 := by
      show quantity > 0
      omega
    rw [if_pos hpos]
    exact List.mem_singleton.2 rfl

/-- A collection added by the editor with the qty `"0"`: a line of quantity 1
in it is blocked. -/
theorem run_zero_limit_blocks_witness :
    CollectionLimitEditor.handleAddCollection [] [] (some "C1") = [⟨"C1", Qty.str "0"⟩] ∧
    run (mkInput [mkLine 1 [⟨"C1", true⟩]] [⟨"C1", Qty.str "0"⟩]) =
      Except.ok { errors := [⟨"Cannot order more than 0 of the product", "cart"⟩] } ∧
    ∃ errors : List FunctionError,
      run (mkInput ([] ++ mkLine 1 [⟨"C1", true⟩] :: [])
        ([] ++ ⟨"C1", Qty.str "0"⟩ :: [])) = Except.ok { errors := errors } ∧
      (⟨"Cannot order more than 0 of the product", "cart"⟩ : FunctionError) ∈ errors :=
  ⟨rfl, rfl, (run_zero_limit_blocks [] [] "C1" (by decide) (by decide) 1 (by decide)
    [⟨"C1", true⟩] (by decide) [] []).2⟩

theorem checkCollection_sublist (mappings : JSObject) (q q' : Int) (h : q ≤ q')
    (collectionId : String) :
    (checkCollection mappings q collectionId).Sublist
      (checkCollection mappings q' collectionId) := by
  cases hl : List.lookup collectionId mappings with
  | none =>
    rw [checkCollection_of_lookup_none _ _ _ hl]
    exact List.nil_sublist _
  | some v =>
    cases v with
    | nan =>
      rw [checkCollection_of_lookup_nan _ _ _ hl]
      exact List.nil_sublist _
    | int l =>
      rw [checkCollection_of_lookup_int _ _ _ l hl, checkCollection_of_lookup_int _ _ _ l hl]
      by_cases hq : q > l
      · have hq' : q' > l := by omega
        rw [if_pos hq, if_pos hq']
      · rw [if_neg hq]
        exact List.nil_sublist _

theorem sublist_flatMap {α β : Type} (f g : α → List β) (l : List α)
    (h : ∀ a, (f a).Sublist (g a)) : (l.flatMap f).Sublist (l.flatMap g) := by
  induction l with
  | nil => exact List.Sublist.refl _
  | cons a t ih =>
    rw [List.flatMap_cons, List.flatMap_cons]
    exact List.Sublist.append (h a) ih

theorem lineErrors_sublist (mappings : JSObject) (q q' : Int) (h : q ≤ q')
    (inCollections : List CollectionMembership) :
    (lineErrors mappings (mkLine q inCollections)).Sublist
      (lineErrors mappings (mkLine q' inCollections)) := by
  rw [lineErrors_eq, lineErrors_eq]
  apply sublist_flatMap
  intro m
  show (if m.isMember = true then checkCollection mappings q m.collectionId else []).Sublist
    (if m.isMember = true then checkCollection mappings q' m.collectionId else [])
  split_ifs
  · exact checkCollection_sublist mappings q q' h _
  · exact List.Sublist.refl _

/-- C26. Monotone in quantity: for a fixed mapping list and fixed memberships,
if `q ≤ q'` then the errors `run` returns for a cart in which one line has
quantity `q` form a sub-list, in order, of the errors it returns when that line
has quantity `q'`: every error emitted at `q` is emitted at `q'`, the number of
errors is non-decreasing in the quantity of each line, and lowering a quantity
never introduces an error. -/
theorem run_monotone_in_quantity (mapping : List MappingEntry) (q q' : Int) (h : q ≤ q')
    (inCollections : List CollectionMembership) (before after : List CartLine) :
    ∃ errors errors' : List FunctionError,
      run (mkInput (before ++ mkLine q inCollections :: after) mapping) =
        Except.ok { errors := errors } ∧
      run (mkInput (before ++ mkLine q' inCollections :: after) mapping) =
        Except.ok { errors := errors' } ∧
      errors.Sublist errors' ∧
      errors.length ≤ errors'.length ∧
      (∀ e ∈ errors, e ∈ errors') := by
  have hsub : ((before ++ mkLine q inCollections :: after).flatMap
        (lineErrors (collectionMappings mapping))).Sublist
      ((before ++ mkLine q' inCollections :: after).flatMap
        (lineErrors (collectionMappings mapping))) := by
    rw [List.flatMap_append, List.flatMap_append, List.flatMap_cons, List.flatMap_cons]
    exact List.Sublist.append (List.Sublist.refl _)
      (List.Sublist.append (lineErrors_sublist _ q q' h inCollections) (List.Sublist.refl _))
  exact ⟨_, _, run_mkInput _ _, run_mkInput _ _, hsub, hsub.length_le, fun e he => hsub.subset he⟩

/-- Limits `C1 ↦ 5`, `C2 ↦ 2`: raising a line in both collections from 3 to 6
keeps the error for `C2` and adds the one for `C1`. -/
theorem run_monotone_in_quantity_witness :
    run (mkInput [mkLine 3 [⟨"C1", true⟩, ⟨"C2", true⟩]]
        [⟨"C1", Qty.str "5"⟩, ⟨"C2", Qty.str "2"⟩]) =
      Except.ok { errors := [⟨"Cannot order more than 2 of the product", "cart"⟩] } ∧
    run (mkInput [mkLine 6 [⟨"C1", true⟩, ⟨"C2", true⟩]]
        [⟨"C1", Qty.str "5"⟩, ⟨"C2", Qty.str "2"⟩]) =
      Except.ok { errors := [⟨"Cannot order more than 5 of the product", "cart"⟩,
        ⟨"Cannot order more than 2 of the product", "cart"⟩] } ∧
    ∃ errors errors' : List FunctionError,
      run (mkInput ([] ++ mkLine 3 [⟨"C1", true⟩, ⟨"C2", true⟩] :: [])
        [⟨"C1", Qty.str "5"⟩, ⟨"C2", Qty.str "2"⟩]) = Except.ok { errors := errors } ∧
      run (mkInput ([] ++ mkLine 6 [⟨"C1", true⟩, ⟨"C2", true⟩] :: [])
        [⟨"C1", Qty.str "5"⟩, ⟨"C2", Qty.str "2"⟩]) = Except.ok { errors := errors' } ∧
      errors.Sublist errors' ∧
      errors.length ≤ errors'.length ∧
      (∀ e ∈ errors, e ∈ errors') :=
  ⟨rfl, rfl, run_monotone_in_quantity [⟨"C1", Qty.str "5"⟩, ⟨"C2", Qty.str "2"⟩] 3 6
    (by decide) [⟨"C1", true⟩, ⟨"C2", true⟩] [] []⟩

end CartValidation

namespace PaymentCustomization

/-! ## Payment customization -/

theorem customerTags_fullInput (hasTags : List HasTagResponse) :
    customerTags (fullInput hasTags) = hasTags := rfl

/-- C17. The payment-customization `run` hides Cash on delivery unless the
customer is tagged: it returns an empty operations list exactly when at least
one entry of `cart.buyerIdentity.customer.hasTags` has `hasTag = true`, and in
every other case it returns exactly one operation, `hide` of the payment method
`gid://shopify/PaymentCustomizationPaymentMethod/3`. -/
theorem run_hides_unless_tagged (input : Option RunInput) :
    ((run input).operations = [] ↔ ∃ t ∈ customerTags input, t.hasTag = true) ∧
    ((∃ t ∈ customerTags input, t.hasTag = true) → run input = NO_CHANGES) ∧
    ((¬ ∃ t ∈ customerTags input, t.hasTag = true) →
      run input = { operations := [Operation.hide
        { paymentMethodId := "gid://shopify/PaymentCustomizationPaymentMethod/3" }] }) ∧
    (∀ hasTags : List HasTagResponse, customerTags (fullInput hasTags) = hasTags) := by
  have htruthy : stringTruthy hidePaymentMethodID = true := by decide
  have hany : (customerTags input).any (fun tagInfo => tagInfo.hasTag) = true ↔
      ∃ t ∈ customerTags input, t.hasTag = true := List.any_eq_true
  have hyes : (∃ t ∈ customerTags input, t.hasTag = true) → run input = NO_CHANGES := by
    intro h
    unfold run
    simp only [hany.2 h, htruthy, Bool.and_self, if_true]
  have hno : (¬ ∃ t ∈ customerTags input, t.hasTag = true) →
      run input = { operations := [Operation.hide
        { paymentMethodId := "gid://shopify/PaymentCustomizationPaymentMethod/3" }] } := by
    intro h
    have hf : (customerTags input).any (fun tagInfo => tagInfo.hasTag) = false := by
      rw [Bool.eq_false_iff]
      exact fun h' => h (hany.1 h')
    unfold run
    simp only [hf, Bool.false_and, Bool.false_eq_true, if_false]
    rfl
  refine ⟨⟨?_, fun h => by rw [hyes h]; rfl⟩, hyes, hno, customerTags_fullInput⟩
  intro hops
  by_contra h
  rw [hno h] at hops
  cases hops

/-- A customer with one tag out of two, and a customer with none. -/
theorem run_hides_unless_tagged_witness :
    run (fullInput [⟨false⟩, ⟨true⟩]) = { operations := [] } ∧
    run (fullInput [⟨false⟩, ⟨false⟩]) = { operations := [Operation.hide
      { paymentMethodId := "gid://shopify/PaymentCustomizationPaymentMethod/3" }] } :=
  ⟨(run_hides_unless_tagged (fullInput [⟨false⟩, ⟨true⟩])).2.1 (by decide),
   (run_hides_unless_tagged (fullInput [⟨false⟩, ⟨false⟩])).2.2.1 (by decide)⟩

/-- C21. The payment-customization `run` is total on incomplete input: it is a
total function of an input in which every level may be missing, and whenever
`input`, `cart`, `buyerIdentity`, `customer` or `hasTags` is missing or `null`,
or `hasTags` is the empty list, it returns the single `hide` operation for Cash
on delivery. -/
theorem run_incomplete_input :
    run none = { operations := [Operation.hide
      { paymentMethodId := "gid://shopify/PaymentCustomizationPaymentMethod/3" }] } ∧
    run (some { cart := none }) = { operations := [Operation.hide
      { paymentMethodId := "gid://shopify/PaymentCustomizationPaymentMethod/3" }] } ∧
    run (some { cart := some { buyerIdentity := none } }) = { operations := [Operation.hide
      { paymentMethodId := "gid://shopify/PaymentCustomizationPaymentMethod/3" }] } ∧
    run (some { cart := some { buyerIdentity := some { customer := none } } }) =
      { operations := [Operation.hide
        { paymentMethodId := "gid://shopify/PaymentCustomizationPaymentMethod/3" }] } ∧
    run (some { cart := some { buyerIdentity := some { customer := some { hasTags := none } } } }) =
      { operations := [Operation.hide
        { paymentMethodId := "gid://shopify/PaymentCustomizationPaymentMethod/3" }] } ∧
    run (fullInput []) = { operations := [Operation.hide
      { paymentMethodId := "gid://shopify/PaymentCustomizationPaymentMethod/3" }] } ∧
    (∀ input : Option RunInput,
      ((((input.bind fun i => i.cart).bind fun c => c.buyerIdentity).bind
          fun b => b.customer).bind fun c => c.hasTags) = none ∨
        ((((input.bind fun i => i.cart).bind fun c => c.buyerIdentity).bind
          fun b => b.customer).bind fun c => c.hasTags) = some [] →
      run input = { operations := [Operation.hide
        { paymentMethodId := "gid://shopify/PaymentCustomizationPaymentMethod/3" }] }) := by
  refine ⟨rfl, rfl, rfl, rfl, rfl, rfl, ?_⟩
  intro input h
  have htags : customerTags input = [] := by
    unfold customerTags
    rcases h with h | h <;> rw [h]
  unfold run
  simp only [htags, List.any_nil, Bool.false_and, Bool.false_eq_true, if_false]
  rfl

/-- A guest checkout: the cart has no buyer identity. -/
theorem run_incomplete_input_witness :
    run (some { cart := some { buyerIdentity := none } }) = { operations := [Operation.hide
      { paymentMethodId := "gid://shopify/PaymentCustomizationPaymentMethod/3" }] } :=
  run_incomplete_input.2.2.2.2.2.2 (some { cart := some { buyerIdentity := none } })
    (Or.inl rfl)

end PaymentCustomization

namespace DiscountAdmin

/-! ## The tag pattern -/

/-- One step of a character class. -/
theorem ends_charClass (input : List Nat) (p : Nat → Bool) (start e : Nat) :
    e ∈ Regex.ends input (Regex.charClass p) start ↔
      e = start + 1 ∧ ∃ u, input[start]? = some u ∧ p u = true := by
  unfold Regex.ends
  cases h : input[start]? with
  | none => simp
  | some u =>
    by_cases hp : p u = true
    · simp [hp]
    · simp [hp]

/-- Soundness of the iteration: a match of `[class]+` from `start` to `e` is
not empty and covers only units of the class. -/
theorem plusEnds_charClass_sound (input : List Nat) (p : Nat → Bool) (fuel : Nat) :
    ∀ start e, e ∈ plusEnds (fun i => Regex.ends input (Regex.charClass p) i) fuel start →
      start < e ∧ ∀ k, start ≤ k → k < e → ∃ u, input[k]? = some u ∧ p u = true := by
  induction fuel with
  | zero => intro start e h; simp [plusEnds] at h
  | succ f ih =>
    intro start e h
    simp only [plusEnds, List.mem_append, List.mem_flatMap] at h
    rcases h with h | ⟨q, hq, h⟩
    · obtain ⟨he, u, hu, hp⟩ := (ends_charClass input p start e).1 h
      refine ⟨by omega, ?_⟩
      intro k hk1 hk2
      have : k = start := by omega
      rw [this]; exact ⟨u, hu, hp⟩
    · obtain ⟨hq1, u, hu, hp⟩ := (ends_charClass input p start q).1 hq
      have hlt : start < q := by omega
      rw [if_pos hlt] at h
      obtain ⟨h1, h2⟩ := ih q e h
      refine ⟨by omega, ?_⟩
      intro k hk1 hk2
      by_cases hks : k = start
      · rw [hks]; exact ⟨u, hu, hp⟩
      · exact h2 k (by omega) hk2

/-- Completeness of the iteration: with enough fuel every non-empty stretch of
units of the class is a match of `[class]+`. -/
theorem plusEnds_charClass_complete (input : List Nat) (p : Nat → Bool) (fuel : Nat) :
    ∀ start e, start < e → e - start ≤ fuel →
      (∀ k, start ≤ k → k < e → ∃ u, input[k]? = some u ∧ p u = true) →
      e ∈ plusEnds (fun i => Regex.ends input (Regex.charClass p) i) fuel start := by
  induction fuel with
  | zero => intro start e h1 h2; omega
  | succ f ih =>
    intro start e h1 h2 h3
    simp only [plusEnds, List.mem_append, List.mem_flatMap]
    have hstep : start + 1 ∈ Regex.ends input (Regex.charClass p) start :=
      (ends_charClass input p start (start + 1)).2 ⟨rfl, h3 start (Nat.le_refl _) h1⟩
    by_cases he : e = start + 1
    · left; rw [he]; exact hstep
    · right
      refine ⟨start + 1, hstep, ?_⟩
      rw [if_pos (Nat.lt_succ_self start)]
      exact ih (start + 1) e (by omega) (by omega) (fun k hk1 hk2 => h3 k (by omega) hk2)

/-- The regular expression `/^[A-Z0-9_]+$/` matches exactly the non-empty
inputs made of units of the class. -/
theorem test_tagPattern (input : List Nat) :
    tagPattern.test input = true ↔ input ≠ [] ∧ ∀ u ∈ input, isTagUnit u = true := by
  unfold Regex.test tagPattern
  rw [List.any_eq_true]
  simp only [Bool.not_eq_true', List.isEmpty_eq_false, List.mem_range]
  constructor
  · rintro ⟨start, _, hne⟩
    obtain ⟨e, he⟩ := List.exists_mem_of_ne_nil _ hne
    simp only [Regex.ends, List.mem_flatMap] at he
    obtain ⟨i, hi, j, hj, hend⟩ := he
    have hi0 : i = 0 := by
      by_cases hs : start = 0
      · rw [if_pos hs, List.mem_singleton] at hi; omega
      · rw [if_neg hs] at hi; cases hi
    have hjl : j = input.length := by
      by_cases hjl : j = input.length
      · exact hjl
      · rw [if_neg hjl] at hend; cases hend
    rw [hi0] at hj
    obtain ⟨hpos, hall⟩ := plusEnds_charClass_sound input isTagUnit _ 0 j hj
    rw [hjl] at hpos hall
    refine ⟨List.ne_nil_of_length_pos hpos, ?_⟩
    intro u hu
    obtain ⟨k, hk, hku⟩ := List.getElem_of_mem hu
    obtain ⟨v, hv, hpv⟩ := hall k (Nat.zero_le _) hk
    rw [List.getElem?_eq_getElem hk, hku] at hv
    injection hv with hv
    rw [hv]; exact hpv
  · rintro ⟨hne, hall⟩
    have hpos : 0 < input.length := List.length_pos.2 hne
    refine ⟨0, by omega, ?_⟩
    apply List.ne_nil_of_mem (a := input.length)
    simp only [Regex.ends, List.mem_flatMap]
    refine ⟨0, by simp, input.length, ?_, by simp⟩
    apply plusEnds_charClass_complete input isTagUnit _ 0 input.length hpos (by omega)
    intro k _ hk
    exact ⟨input[k], List.getElem?_eq_getElem hk, hall _ (List.getElem_mem hk)⟩

/-- The regular expression `/\s/` matches exactly the inputs that hold a white
space unit. -/
theorem test_whiteSpacePattern (input : List Nat) :
    whiteSpacePattern.test input = true ↔ ∃ u ∈ input, isWhiteSpaceUnit u = true := by
  unfold Regex.test whiteSpacePattern
  rw [List.any_eq_true]
  simp only [Bool.not_eq_true', List.isEmpty_eq_false, List.mem_range]
  constructor
  · rintro ⟨start, _, hne⟩
    obtain ⟨e, he⟩ := List.exists_mem_of_ne_nil _ hne
    obtain ⟨_, u, hu, hp⟩ := (ends_charClass input _ start e).1 he
    exact ⟨u, List.getElem?_mem hu, hp⟩
  · rintro ⟨u, hu, hp⟩
    obtain ⟨k, hk, hku⟩ := List.getElem_of_mem hu
    refine ⟨k, by omega, ?_⟩
    apply List.ne_nil_of_mem (a := k + 1)
    rw [ends_charClass]
    exact ⟨rfl, u, by rw [List.getElem?_eq_getElem hk, hku], hp⟩

theorem not_isWhiteSpaceUnit_of_isTagUnit (u : Nat) (h : isTagUnit u = true) :
    isWhiteSpaceUnit u = false := by
  have h0 : ('0' : Char).toNat = 48 := rfl
  have h9 : ('9' : Char).toNat = 57 := rfl
  have hA : ('A' : Char).toNat = 65 := rfl
  have hZ : ('Z' : Char).toNat = 90 := rfl
  have hU : ('_' : Char).toNat = 95 := rfl
  simp only [isTagUnit, h0, h9, hA, hZ, hU, decide_eq_true_eq] at h
  simp only [isWhiteSpaceUnit, CartValidation.strWhiteSpaceCodes, decide_eq_false_iff_not,
    List.mem_cons, List.mem_singleton, List.not_mem_nil, or_false]
  omega

/-- The tag validator accepts exactly the non-empty strings of units of the
class `[A-Z0-9_]`. -/
theorem validateTag_iff (tag : List Nat) :
    validateTag tag = true ↔ tag ≠ [] ∧ ∀ u ∈ tag, isTagUnit u = true := by
  unfold validateTag
  rw [Bool.and_eq_true, test_tagPattern, Bool.not_eq_true', Bool.eq_false_iff]
  constructor
  · exact fun h => h.1
  · intro h
    refine ⟨h, ?_⟩
    intro hws
    obtain ⟨u, hu, hw⟩ := (test_whiteSpacePattern tag).1 hws
    rw [not_isWhiteSpaceUnit_of_isTagUnit u (h.2 u hu)] at hw
    cases hw

theorem char_le_iff (c d : Char) : c ≤ d ↔ c.toNat ≤ d.toNat := by
  show c.val ≤ d.val ↔ _
  rw [UInt32.le_def]; rfl

theorem char_eq_iff (c d : Char) : c = d ↔ c.toNat = d.toNat := by
  constructor
  · intro h; rw [h]
  · intro h
    apply Char.ext
    apply UInt32.ext
    exact h

theorem isTagUnit_toNat (c : Char) : isTagUnit c.toNat = isTagChar c := by
  unfold isTagUnit isTagChar
  simp only [char_le_iff, char_eq_iff]

theorem isTagChar_lt (c : Char) (h : isTagChar c = true) : c.toNat < 0x10000 := by
  have h0 : ('0' : Char).toNat = 48 := rfl
  have h9 : ('9' : Char).toNat = 57 := rfl
  have hA : ('A' : Char).toNat = 65 := rfl
  have hZ : ('Z' : Char).toNat = 90 := rfl
  have hU : ('_' : Char).toNat = 95 := rfl
  simp only [isTagChar, char_le_iff, char_eq_iff, h0, h9, hA, hZ, hU, decide_eq_true_eq] at h
  omega

theorem not_isTagUnit_of_ge (u : Nat) (h : 0xD800 ≤ u) : isTagUnit u = false := by
  have h0 : ('0' : Char).toNat = 48 := rfl
  have h9 : ('9' : Char).toNat = 57 := rfl
  have hA : ('A' : Char).toNat = 65 := rfl
  have hZ : ('Z' : Char).toNat = 90 := rfl
  have hU : ('_' : Char).toNat = 95 := rfl
  simp only [isTagUnit, h0, h9, hA, hZ, hU, decide_eq_false_iff_not]
  omega

/-- The code units of a string are all in the class `[A-Z0-9_]` exactly when
its characters are. -/
theorem forall_codeUnits_isTagUnit (s : String) :
    (∀ u ∈ codeUnits s, isTagUnit u = true) ↔ ∀ c ∈ s.data, isTagChar c = true := by
  unfold codeUnits
  simp only [List.mem_flatMap]
  constructor
  · intro h c hc
    by_cases hlt : c.toNat < 0x10000
    · rw [← isTagUnit_toNat]
      exact h c.toNat ⟨c, hc, by rw [if_pos hlt]; exact List.mem_singleton.2 rfl⟩
    · have := h (0xD800 + (c.toNat - 0x10000) / 0x400)
        ⟨c, hc, by rw [if_neg hlt]; exact List.mem_cons_self _ _⟩
      rw [not_isTagUnit_of_ge _ (Nat.le_add_right _ _)] at this
      cases this
  · rintro h u ⟨c, hc, hu⟩
    have hlt := isTagChar_lt c (h c hc)
    rw [if_pos hlt, List.mem_singleton] at hu
    rw [hu, isTagUnit_toNat]
    exact h c hc

theorem codeUnits_eq_nil_iff (s : String) : codeUnits s = [] ↔ s.data = [] := by
  unfold codeUnits
  cases s.data with
  | nil => simp
  | cons c t =>
    simp only [List.flatMap_cons, List.append_eq_nil, reduceCtorEq, iff_false, not_and]
    intro h
    split_ifs at h

/-- C19. The tag validator returns true exactly when the tag is a non-empty
string made only of uppercase letters `A`–`Z`, digits `0`–`9` and underscores;
every tag that holds a lowercase letter, a space or any other white space
character (a trailing newline included) is rejected. -/
theorem validateTag_accepts_iff (tag : String) :
    (validateTag (codeUnits tag) = true ↔
      tag.data ≠ [] ∧ ∀ c ∈ tag.data, isTagChar c = true) ∧
    ((∃ c ∈ tag.data, isLowercaseChar c = true ∨ CartValidation.isStrWhiteSpaceChar c = true) →
      validateTag (codeUnits tag) = false) := by
  have hiff : validateTag (codeUnits tag) = true ↔
      tag.data ≠ [] ∧ ∀ c ∈ tag.data, isTagChar c = true := by
    rw [validateTag_iff, forall_codeUnits_isTagUnit, Ne, codeUnits_eq_nil_iff]
  refine ⟨hiff, ?_⟩
  rintro ⟨c, hc, hbad⟩
  rw [Bool.eq_false_iff]
  intro hv
  have htag := (hiff.1 hv).2 c hc
  have h0 : ('0' : Char).toNat = 48 := rfl
  have h9 : ('9' : Char).toNat = 57 := rfl
  have hA : ('A' : Char).toNat = 65 := rfl
  have hZ : ('Z' : Char).toNat = 90 := rfl
  have hU : ('_' : Char).toNat = 95 := rfl
  have ha : ('a' : Char).toNat = 97 := rfl
  have hz : ('z' : Char).toNat = 122 := rfl
  simp only [isTagChar, char_le_iff, char_eq_iff, h0, h9, hA, hZ, hU, decide_eq_true_eq] at htag
  rcases hbad with hl | hw
  · simp only [isLowercaseChar, char_le_iff, ha, hz, decide_eq_true_eq] at hl
    omega
  · simp only [CartValidation.isStrWhiteSpaceChar, CartValidation.strWhiteSpaceCodes,
      decide_eq_true_eq, List.mem_cons, List.mem_singleton, List.not_mem_nil, or_false] at hw
    omega

/-- The tag `VIP_10` is accepted; with a trailing newline, with a space, or in
lowercase it is rejected. -/
theorem validateTag_accepts_iff_witness :
    validateTag (codeUnits "VIP_10") = true ∧
    validateTag (codeUnits "VIP_10\n") = false ∧
    validateTag (codeUnits "VIP 10") = false ∧
    validateTag (codeUnits "vip_10") = false :=
  ⟨(validateTag_accepts_iff "VIP_10").1.2 (by decide),
   (validateTag_accepts_iff "VIP_10\n").2 ⟨'\n', by decide, Or.inr (by decide)⟩,
   (validateTag_accepts_iff "VIP 10").2 ⟨' ', by decide, Or.inr (by decide)⟩,
   (validateTag_accepts_iff "vip_10").2 ⟨'v', by decide, Or.inl (by decide)⟩⟩

/-! ## The discount code validator -/

/-- C18, a discount code the validator accepts although its last two characters
are not both digits: for the code `AB5X` and the percentage `5` the last two
characters are `5X`, `parseInt` reads the number 5 from them, and the validator
returns true.  The same holds for a sign in front of one digit. -/
theorem validateDiscountCode_accepts_non_digit_suffix :
    validateDiscountCode (codeUnits "AB5X") (codeUnits "5") = true ∧
    sliceLastTwo (codeUnits "AB5X") = codeUnits "5X" ∧
    (sliceLastTwo (codeUnits "AB5X")).all isDigitUnit = false ∧
    validateDiscountCode (codeUnits "AB-5") (codeUnits "-5") = true ∧
    (sliceLastTwo (codeUnits "AB-5")).all isDigitUnit = false := by
  decide

end DiscountAdmin

namespace DiscountAdmin

/-! ## Staged tag discounts -/

/-- What `handleAddTagDiscount` does, case by case: it appends the entry when
every test passes and leaves the list alone otherwise. -/
theorem handleAddTagDiscount_eq (toNumber : List Nat → NumberValue)
    (staged : List TagDiscount) (tag code percentage : List Nat) (isD12C : Bool) :
    handleAddTagDiscount toNumber staged tag code percentage isD12C =
      if tag ≠ [] ∧ code ≠ [] ∧ percentage ≠ [] ∧
          (toNumber percentage).isNaN = false ∧
          (toNumber percentage).greaterThan 25 = false ∧
          validateTag tag = true ∧ validateDiscountCode code percentage = true ∧
          tag ∉ stagedTags staged then
        staged ++ [{ tag := tag, discountCode := code, discountPercentage := percentage,
                     isD12C := isD12C }]
      else staged := by
  have hany : (staged.any fun discount => decide (discount.tag = tag)) = true ↔
      tag ∈ stagedTags staged := by
    unfold stagedTags
    rw [List.any_eq_true, List.mem_map]
    constructor
    · rintro ⟨d, hd, h⟩; exact ⟨d, hd, of_decide_eq_true h⟩
    · rintro ⟨d, hd, h⟩; exact ⟨d, hd, decide_eq_true h⟩
  unfold handleAddTagDiscount
  by_cases h1 : (tag.isEmpty || code.isEmpty || percentage.isEmpty) = true
  · rw [if_pos h1, if_neg]
    intro h
    simp only [Bool.or_eq_true, List.isEmpty_iff] at h1
    rcases h1 with (h1 | h1) | h1
    · exact h.1 h1
    · exact h.2.1 h1
    · exact h.2.2.1 h1
  rw [if_neg h1]
  simp only [Bool.or_eq_true, List.isEmpty_iff, not_or] at h1
  by_cases h2 : ((toNumber percentage).isNaN || (toNumber percentage).greaterThan 25) = true
  · rw [if_pos h2, if_neg]
    intro h
    rw [Bool.or_eq_true] at h2
    rcases h2 with h2 | h2
    · rw [h.2.2.2.1] at h2; cases h2
    · rw [h.2.2.2.2.1] at h2; cases h2
  rw [if_neg h2]
  simp only [Bool.or_eq_true, not_or, Bool.not_eq_true] at h2
  by_cases h3 : validateTag tag = true
  · have e3 : ¬ (!validateTag tag) = true := by rw [h3]; decide
    rw [if_neg e3]
    by_cases h4 : validateDiscountCode code percentage = true
    · have e4 : ¬ (!validateDiscountCode code percentage) = true := by rw [h4]; decide
      rw [if_neg e4]
      by_cases h5 : tag ∈ stagedTags staged
      · rw [if_pos (hany.2 h5), if_neg]
        exact fun h => h.2.2.2.2.2.2.2 h5
      · rw [if_neg (fun h => h5 (hany.1 h)), if_pos]
        exact ⟨h1.1.1, h1.1.2, h1.2, h2.1, h2.2, h3, h4, h5⟩
    · have e4 : (!validateDiscountCode code percentage) = true := by
        rw [Bool.not_eq_true] at h4; rw [h4]; rfl
      rw [if_pos e4, if_neg]
      exact fun h => h4 h.2.2.2.2.2.2.1
  · have e3 : (!validateTag tag) = true := by
      rw [Bool.not_eq_true] at h3; rw [h3]; rfl
    rw [if_pos e3, if_neg]
    exact fun h => h3 h.2.2.2.2.2.1

theorem handleRemoveTagDiscount_sublist (staged : List TagDiscount) (index : Nat) :
    (handleRemoveTagDiscount staged index).Sublist staged := by
  unfold handleRemoveTagDiscount
  have h := ((List.filter_sublist (l := staged.enum)
    (p := fun p => decide (p.1 ≠ index)))).map (fun p => p.2)
  have hs : staged.enum.map (fun p => p.2) = staged := List.enum_map_snd staged
  rw [hs] at h
  exact h

/-- C24. Tags stay unique among the staged tag discounts: if no two entries of
`stagedTagDiscounts` have the same tag, then after `handleAddTagDiscount` (for
any form fields) or `handleRemoveTagDiscount` (for any index) no two entries
have the same tag; and `handleAddTagDiscount` either leaves the staged list
unchanged or appends the one entry of the form, the latter only when the
percentage converts to a number that is not `NaN` and not greater than 25, the
tag passes `validateTag` and the code passes `validateDiscountCode`. -/
theorem staged_tags_stay_unique (toNumber : List Nat → NumberValue)
    (staged : List TagDiscount) (h : (stagedTags staged).Nodup) :
    (∀ (tag code percentage : List Nat) (isD12C : Bool),
      (stagedTags (handleAddTagDiscount toNumber staged tag code percentage isD12C)).Nodup) ∧
    (∀ index : Nat, (stagedTags (handleRemoveTagDiscount staged index)).Nodup) ∧
    (∀ (tag code percentage : List Nat) (isD12C : Bool),
      handleAddTagDiscount toNumber staged tag code percentage isD12C = staged ∨
      (handleAddTagDiscount toNumber staged tag code percentage isD12C =
          staged ++ [{ tag := tag, discountCode := code, discountPercentage := percentage,
                       isD12C := isD12C }] ∧
        (toNumber percentage).isNaN = false ∧
        (toNumber percentage).greaterThan 25 = false ∧
        validateTag tag = true ∧
        validateDiscountCode code percentage = true)) := by
  refine ⟨?_, ?_, ?_⟩
  · intro tag code percentage isD12C
    rw [handleAddTagDiscount_eq]
    split_ifs with hc
    · unfold stagedTags at h hc ⊢
      rw [List.map_append, List.map_cons, List.map_nil, List.nodup_append]
      refine ⟨h, List.nodup_singleton _, ?_⟩
      intro a ha hb
      rw [List.mem_singleton] at hb
      rw [hb] at ha
      exact hc.2.2.2.2.2.2.2 ha
    · exact h
  · intro index
    unfold stagedTags at h ⊢
    exact h.sublist ((handleRemoveTagDiscount_sublist staged index).map _)
  · intro tag code percentage isD12C
    rw [handleAddTagDiscount_eq]
    split_ifs with hc
    · right
      exact ⟨rfl, hc.2.2.2.1, hc.2.2.2.2.1, hc.2.2.2.2.2.1, hc.2.2.2.2.2.2.1⟩
    · left; rfl

/-- One staged discount for the tag `VIP`: a second discount for `VIP` is
rejected, one for `GOLD` with the code `GOLD10` and the percentage `10` is
appended, one with the percentage `30` is rejected, and removing position 0
leaves the other entry. -/
theorem staged_tags_stay_unique_witness :
    handleAddTagDiscount decimalToNumber
        [⟨codeUnits "VIP", codeUnits "VIP05", codeUnits "5", false⟩]
        (codeUnits "VIP") (codeUnits "NEW10") (codeUnits "10") false =
      [⟨codeUnits "VIP", codeUnits "VIP05", codeUnits "5", false⟩] ∧
    handleAddTagDiscount decimalToNumber
        [⟨codeUnits "VIP", codeUnits "VIP05", codeUnits "5", false⟩]
        (codeUnits "GOLD") (codeUnits "GOLD10") (codeUnits "10") true =
      [⟨codeUnits "VIP", codeUnits "VIP05", codeUnits "5", false⟩,
       ⟨codeUnits "GOLD", codeUnits "GOLD10", codeUnits "10", true⟩] ∧
    handleAddTagDiscount decimalToNumber
        [⟨codeUnits "VIP", codeUnits "VIP05", codeUnits "5", false⟩]
        (codeUnits "GOLD") (codeUnits "GOLD30") (codeUnits "30") true =
      [⟨codeUnits "VIP", codeUnits "VIP05", codeUnits "5", false⟩] ∧
    handleRemoveTagDiscount
        [⟨codeUnits "VIP", codeUnits "VIP05", codeUnits "5", false⟩,
         ⟨codeUnits "GOLD", codeUnits "GOLD10", codeUnits "10", true⟩] 0 =
      [⟨codeUnits "GOLD", codeUnits "GOLD10", codeUnits "10", true⟩] ∧
    (stagedTags (handleAddTagDiscount decimalToNumber
        [⟨codeUnits "VIP", codeUnits "VIP05", codeUnits "5", false⟩]
        (codeUnits "GOLD") (codeUnits "GOLD10") (codeUnits "10") true)).Nodup :=
  ⟨by decide, by decide, by decide, by decide,
   (staged_tags_stay_unique decimalToNumber
      [⟨codeUnits "VIP", codeUnits "VIP05", codeUnits "5", false⟩] (by decide)).1
      (codeUnits "GOLD") (codeUnits "GOLD10") (codeUnits "10") true⟩

end DiscountAdmin

namespace CustomerTagging

/-! ## The blacklist check -/

theorem splitOnComma_ne_nil (cs : List Char) : splitOnComma cs ≠ [] := by
  cases cs with
  | nil => simp [splitOnComma]
  | cons c t =>
    unfold splitOnComma
    split_ifs
    · simp
    · split <;> simp

/-- The pieces of `split(",")`, joined by commas again, give the string back. -/
theorem intercalate_splitOnComma (cs : List Char) :
    List.intercalate [','] (splitOnComma cs) = cs := by
  induction cs with
  | nil => rfl
  | cons c t ih =>
    unfold splitOnComma
    by_cases hc : c = ','
    · rw [if_pos hc]
      obtain ⟨p, ps, hps⟩ := List.exists_cons_of_ne_nil (splitOnComma_ne_nil t)
      rw [hps] at ih ⊢
      unfold List.intercalate at ih ⊢
      rw [List.intersperse_cons_cons, List.flatten_cons, List.flatten_cons, ih, hc]
      rfl
    · rw [if_neg hc]
      obtain ⟨p, ps, hps⟩ := List.exists_cons_of_ne_nil (splitOnComma_ne_nil t)
      rw [hps] at ih ⊢
      simp only
      unfold List.intercalate at ih ⊢
      cases ps with
      | nil =>
        rw [List.intersperse_singleton, List.flatten_cons] at ih ⊢
        rw [List.cons_append, ih]
      | cons q qs =>
        rw [List.intersperse_cons_cons, List.flatten_cons] at ih ⊢
        rw [List.cons_append, ih]

/-- No piece of `split(",")` holds a comma. -/
theorem not_mem_splitOnComma (cs : List Char) : ∀ piece ∈ splitOnComma cs, ',' ∉ piece := by
  induction cs with
  | nil =>
    intro piece hp
    simp only [splitOnComma, List.mem_singleton] at hp
    rw [hp]; simp
  | cons c t ih =>
    intro piece hp
    unfold splitOnComma at hp
    by_cases hc : c = ','
    · rw [if_pos hc, List.mem_cons] at hp
      rcases hp with hp | hp
      · rw [hp]; simp
      · exact ih piece hp
    · rw [if_neg hc] at hp
      obtain ⟨p, ps, hps⟩ := List.exists_cons_of_ne_nil (splitOnComma_ne_nil t)
      rw [hps] at hp ih
      simp only [List.mem_cons] at hp
      rcases hp with hp | hp
      · rw [hp, List.mem_cons, not_or]
        exact ⟨fun h => hc h.symm, ih p (List.mem_cons_self _ _)⟩
      · exact ih piece (List.mem_cons_of_mem _ hp)

theorem intersectedTags_eq (form : TagForm) :
    intersectedTags form =
      (requestedTags form.tags).filter fun tag => decide (tag ∈ form.blacklistedTags) := by
  unfold intersectedTags
  congr 1
  funext tag
  simp

/-- C20. Blacklisted tags cannot be used: the requested tags are the pieces of
the `tags` field between its commas, each trimmed; if at least one of them is an
element of `blacklistedTags`, the action answers with status 400 and the message
that lists exactly the blacklisted requested tags, in request order, joined by
`", "`, it does not call `handleTags`, and the shop's customer tags are
unchanged; if none is blacklisted, the response and the shop are those of
`handleTags` called with the emails, the requested tags and the mutation the
action type selects. -/
theorem action_blacklisted_tags {σ : Type}
    (handleTags : List String → List String → TagMutation → σ →
      Except String (List String) × σ) (form : TagForm) (shop : σ) :
    (∃ pieces : List (List Char),
      List.intercalate [','] pieces = form.tags.data ∧
      (∀ piece ∈ pieces, ',' ∉ piece) ∧
      requestedTags form.tags = pieces.map fun piece => String.mk (trim piece)) ∧
    ((∃ tag ∈ requestedTags form.tags, tag ∈ form.blacklistedTags) →
      action handleTags form shop =
        (ActionResponse.badRequest
          ("The following tags are blacklisted and cannot be used: " ++
            String.intercalate ", "
              ((requestedTags form.tags).filter fun tag =>
                decide (tag ∈ form.blacklistedTags))), shop)) ∧
    ((∀ tag ∈ requestedTags form.tags, tag ∉ form.blacklistedTags) →
      action handleTags form shop =
        match handleTags form.emails (requestedTags form.tags)
            (if form.actionType = "add" then TagMutation.addTagsToCustomer
              else TagMutation.removeTagsFromCustomer) shop with
        | (Except.ok failedEmails, shop') => (ActionResponse.success failedEmails, shop')
        | (Except.error message, shop') => (ActionResponse.serverError message, shop')) := by
  refine ⟨⟨splitOnComma form.tags.data, intercalate_splitOnComma _, not_mem_splitOnComma _, rfl⟩,
    ?_, ?_⟩
  · rintro ⟨tag, hreq, hbl⟩
    have hpos : (intersectedTags form).length > 0 := by
      rw [intersectedTags_eq]
      apply List.length_pos.2
      apply List.ne_nil_of_mem (a := tag)
      rw [List.mem_filter]
      exact ⟨hreq, decide_eq_true hbl⟩
    unfold action
    simp only [if_pos hpos]
    rw [intersectedTags_eq]
  · intro hnone
    have hnil : intersectedTags form = [] := by
      rw [intersectedTags_eq, List.filter_eq_nil_iff]
      intro tag hreq
      simpa using hnone tag hreq
    unfold action
    simp only [hnil, List.length_nil, gt_iff_lt, Nat.lt_irrefl, if_false]
    by_cases hadd : form.actionType = "add"
    · simp only [if_pos hadd]
    · simp only [if_neg hadd]

/-- Tags ` vip, gold ,staff` with `staff` and `vip` blacklisted: status 400,
the message lists `vip, staff` in request order, and the shop is unchanged
although `handleTags` would change it. -/
theorem action_blacklisted_tags_witness :
    action (fun emails _ _ (shop : Nat) => (Except.ok emails, shop + 1))
        ⟨"add", ["a@example.com"], " vip, gold ,staff", ["staff", "vip"]⟩ 0 =
      (ActionResponse.badRequest
        "The following tags are blacklisted and cannot be used: vip, staff", 0) ∧
    action (fun emails _ _ (shop : Nat) => (Except.ok emails, shop + 1))
        ⟨"add", ["a@example.com"], " vip, gold ,staff", ["banned"]⟩ 0 =
      (ActionResponse.success ["a@example.com"], 1) :=
  ⟨((action_blacklisted_tags (fun emails _ _ (shop : Nat) => (Except.ok emails, shop + 1))
      ⟨"add", ["a@example.com"], " vip, gold ,staff", ["staff", "vip"]⟩ 0).2.1
      ⟨"vip", by decide, by decide⟩).trans (by decide),
   ((action_blacklisted_tags (fun emails _ _ (shop : Nat) => (Except.ok emails, shop + 1))
      ⟨"add", ["a@example.com"], " vip, gold ,staff", ["banned"]⟩ 0).2.2
      (by decide)).trans (by decide)⟩

end CustomerTagging

namespace CustomerTagging

/-! ## Batched requests -/

theorem promiseAll_map_ok {α β : Type} (f : α → Except String β) (g : α → β) (l : List α)
    (h : ∀ x ∈ l, f x = Except.ok (g x)) :
    promiseAll (l.map f) = Except.ok (l.map g) := by
  induction l with
  | nil => rfl
  | cons a t ih =>
    simp only [List.map_cons, promiseAll, h a (List.mem_cons_self _ _),
      ih (fun x hx => h x (List.mem_cons_of_mem _ hx))]

theorem promiseAll_error {α β : Type} (f : α → Except String β) (l : List α) (x : α)
    (hx : x ∈ l) (e : String) (h : f x = Except.error e) :
    ∃ e', promiseAll (l.map f) = Except.error e' := by
  induction l with
  | nil => cases hx
  | cons a t ih =>
    cases hfa : f a with
    | error e₁ =>
      refine ⟨e₁, ?_⟩
      simp only [List.map_cons, promiseAll, hfa]
    | ok v =>
      rcases List.mem_cons.1 hx with hxa | hxt
      · rw [hxa, hfa] at h; cases h
      · obtain ⟨e', he'⟩ := ih hxt
        refine ⟨e', ?_⟩
        simp only [List.map_cons, promiseAll, hfa, he']

theorem lookupValue_of_ok (admin : Admin) (email : String)
    (h : ∃ v, admin.customerIdByEmail email = Except.ok v) :
    admin.customerIdByEmail email = Except.ok (lookupValue admin email) := by
  obtain ⟨v, hv⟩ := h
  unfold lookupValue
  rw [hv]

theorem zip_map_self {α β : Type} (g : α → β) (l : List α) :
    l.zip (l.map g) = l.map fun x => (x, g x) := by
  induction l with
  | nil => rfl
  | cons a t ih => rw [List.map_cons, List.zip_cons_cons, ih, List.map_cons]

theorem filterMap_failed (admin : Admin) (l : List String) :
    (l.map fun x => (x, lookupValue admin x)).filterMap
        (fun p => if customerFound p.2 = true then none else some p.1) =
      l.filter fun email => !customerFound (lookupValue admin email) := by
  induction l with
  | nil => rfl
  | cons a t ih =>
    rw [List.map_cons, List.filterMap_cons, List.filter_cons, ih]
    by_cases hf : customerFound (lookupValue admin a) = true
    · simp [hf]
    · simp [hf]

/-- The emails a batch looks up are the emails of the batch, whatever the
outcome. -/
theorem lookedUp_executeBatchedRequests (admin : Admin) (batch tagsArray : List String)
    (action : TagMutation) :
    lookedUp (executeBatchedRequests admin batch tagsArray action).2 = batch := by
  have hl : lookedUp (batch.map ApiCall.customerByEmail) = batch := by
    unfold lookedUp
    induction batch with
    | nil => rfl
    | cons a t ih => rw [List.map_cons, List.filterMap_cons]; simp only; rw [ih]
  have hm : ∀ ids : List String,
      lookedUp (ids.map fun customerId => ApiCall.tagsMutation action customerId tagsArray) =
        [] := by
    intro ids
    unfold lookedUp
    induction ids with
    | nil => rfl
    | cons a t ih => rw [List.map_cons, List.filterMap_cons]; simp only; rw [ih]
  have happ : ∀ a b : List ApiCall, lookedUp (a ++ b) = lookedUp a ++ lookedUp b := by
    intro a b
    unfold lookedUp
    rw [List.filterMap_append]
  unfold executeBatchedRequests
  simp only
  split
  · exact hl
  · split
    · rw [happ, hl, hm, List.append_nil]
    · rw [happ, hl, hm, List.append_nil]

/-- The bound on the iterations does not matter once it covers the emails that
are left. -/
theorem handleTagsLoop_fuel (admin : Admin) (emails tagsArray : List String)
    (action : TagMutation) (fuel : Nat) :
    ∀ (fuel' i : Nat) (failedEmails : List String) (issued : List (List ApiCall)),
      emails.length - i ≤ fuel → emails.length - i ≤ fuel' →
      handleTagsLoop admin emails tagsArray action fuel i failedEmails issued =
        handleTagsLoop admin emails tagsArray action fuel' i failedEmails issued := by
  induction fuel with
  | zero =>
    intro fuel' i failedEmails issued h _
    have hi : ¬ i < emails.length := by omega
    cases fuel' with
    | zero => rfl
    | succ f' => rw [handleTagsLoop, handleTagsLoop, if_neg hi]
  | succ f ih =>
    intro fuel' i failedEmails issued h h'
    cases fuel' with
    | zero =>
      have hi : ¬ i < emails.length := by omega
      rw [handleTagsLoop, handleTagsLoop, if_neg hi]
    | succ f' =>
      rw [handleTagsLoop, handleTagsLoop]
      by_cases hi : i < emails.length
      · rw [if_pos hi, if_pos hi]
        simp only
        split
        · exact ih f' _ _ _ (by unfold batchSize; omega) (by unfold batchSize; omega)
        · rfl
      · rw [if_neg hi, if_neg hi]

theorem validCustomerIds_eq (admin : Admin) (l : List String) :
    (l.map fun x => (x, lookupValue admin x)).filterMap
        (fun p => if customerFound p.2 = true then p.2 else none) =
      l.filterMap fun email =>
        if customerFound (lookupValue admin email) = true then lookupValue admin email
        else none := by
  rw [List.filterMap_map]
  rfl

/-- The result of a batch: the emails without a customer when every request
succeeds, the fixed error otherwise. -/
theorem executeBatchedRequests_result (admin : Admin) (batch tagsArray : List String)
    (action : TagMutation) :
    (executeBatchedRequests admin batch tagsArray action).1 =
      if batch.all (requestsSucceed admin tagsArray action) = true then
        Except.ok (batch.filter fun email => !customerFound (lookupValue admin email))
      else Except.error requestExecutionError := by
  by_cases hall : ∀ email ∈ batch, ∃ v, admin.customerIdByEmail email = Except.ok v
  · have h1 : promiseAll (batch.map admin.customerIdByEmail) =
        Except.ok (batch.map (lookupValue admin)) :=
      promiseAll_map_ok _ _ batch (fun x hx => lookupValue_of_ok admin x (hall x hx))
    unfold executeBatchedRequests
    simp only [h1, zip_map_self, filterMap_failed, validCustomerIds_eq]
    by_cases hm : ∀ customerId ∈ batch.filterMap (fun email =>
        if customerFound (lookupValue admin email) = true then lookupValue admin email
        else none), ∃ u, admin.applyMutation action customerId tagsArray = Except.ok u
    · have h2 := promiseAll_map_ok
        (fun customerId => admin.applyMutation action customerId tagsArray) (fun _ => ())
        _ (fun x hx => by obtain ⟨u, hu⟩ := hm x hx; exact hu)
      rw [h2]
      have hs : batch.all (requestsSucceed admin tagsArray action) = true := by
        rw [List.all_eq_true]
        intro email hemail
        have hv := lookupValue_of_ok admin email (hall email hemail)
        unfold requestsSucceed
        rw [hv]
        cases hlv : lookupValue admin email with
        | none => rfl
        | some customerId =>
          simp only
          split_ifs with hf
          · have hmem : customerId ∈ batch.filterMap (fun email =>
                if customerFound (lookupValue admin email) = true then lookupValue admin email
                else none) := by
              rw [List.mem_filterMap]
              exact ⟨email, hemail, by rw [hlv, if_pos hf]⟩
            obtain ⟨u, hu⟩ := hm customerId hmem
            rw [hu]
          · rfl
      rw [if_pos hs]
    · push_neg at hm
      obtain ⟨customerId, hmem, hfail⟩ := hm
      have herr : ∃ e, admin.applyMutation action customerId tagsArray = Except.error e := by
        cases hr : admin.applyMutation action customerId tagsArray with
        | error e => exact ⟨e, rfl⟩
        | ok u => exact absurd hr (hfail u)
      obtain ⟨e, he⟩ := herr
      obtain ⟨e', he'⟩ := promiseAll_error
        (fun customerId => admin.applyMutation action customerId tagsArray) _ customerId hmem e he
      rw [he']
      have hs : ¬ batch.all (requestsSucceed admin tagsArray action) = true := by
        rw [List.all_eq_true]
        intro hs
        rw [List.mem_filterMap] at hmem
        obtain ⟨email, hemail, hid⟩ := hmem
        have hrs := hs email hemail
        have hv := lookupValue_of_ok admin email (hall email hemail)
        unfold requestsSucceed at hrs
        rw [hv] at hrs
        split_ifs at hid with hf
        rw [hid] at hrs hf
        simp only [hf, if_true, he] at hrs
        cases hrs
      rw [if_neg hs]
  · push_neg at hall
    obtain ⟨email, hemail, hfail⟩ := hall
    have herr : ∃ e, admin.customerIdByEmail email = Except.error e := by
      cases hr : admin.customerIdByEmail email with
      | error e => exact ⟨e, rfl⟩
      | ok v => exact absurd hr (hfail v)
    obtain ⟨e, he⟩ := herr
    obtain ⟨e', he'⟩ := promiseAll_error admin.customerIdByEmail batch email hemail e he
    unfold executeBatchedRequests
    simp only [he']
    have hs : ¬ batch.all (requestsSucceed admin tagsArray action) = true := by
      rw [List.all_eq_true]
      intro hs
      have hrs := hs email hemail
      unfold requestsSucceed at hrs
      rw [he] at hrs
      cases hrs
    rw [if_neg hs]

theorem drop_split (emails : List String) (i : Nat) :
    emails.drop i = (emails.drop i).take batchSize ++ emails.drop (i + batchSize) := by
  rw [← List.drop_drop, List.take_append_drop]

/-- The result of the loop from position `i`: the accumulated emails followed by
the remaining emails without a customer when every remaining request succeeds,
the fixed error otherwise. -/
theorem handleTagsLoop_result (admin : Admin) (emails tagsArray : List String)
    (action : TagMutation) (fuel : Nat) :
    ∀ (i : Nat) (failedEmails : List String) (issued : List (List ApiCall)),
      emails.length - i ≤ fuel →
      (handleTagsLoop admin emails tagsArray action fuel i failedEmails issued).1 =
        if (emails.drop i).all (requestsSucceed admin tagsArray action) = true then
          Except.ok (failedEmails ++
            (emails.drop i).filter fun email => !customerFound (lookupValue admin email))
        else Except.error requestExecutionError := by
  induction fuel with
  | zero =>
    intro i failedEmails issued h
    have hnil : emails.drop i = [] := List.drop_eq_nil_of_le (by omega)
    rw [handleTagsLoop, hnil]
    simp
  | succ f ih =>
    intro i failedEmails issued h
    rw [handleTagsLoop]
    by_cases hi : i < emails.length
    · rw [if_pos hi]
      simp only
      have hres := executeBatchedRequests_result admin ((emails.drop i).take batchSize)
        tagsArray action
      have hallsplit : (emails.drop i).all (requestsSucceed admin tagsArray action) =
          (((emails.drop i).take batchSize).all (requestsSucceed admin tagsArray action) &&
            (emails.drop (i + batchSize)).all (requestsSucceed admin tagsArray action)) := by
        conv_lhs => rw [drop_split emails i]
        rw [List.all_append]
      have hfiltersplit :
          (emails.drop i).filter (fun email => !customerFound (lookupValue admin email)) =
          ((emails.drop i).take batchSize).filter
              (fun email => !customerFound (lookupValue admin email)) ++
            (emails.drop (i + batchSize)).filter
              (fun email => !customerFound (lookupValue admin email)) := by
        conv_lhs => rw [drop_split emails i]
        rw [List.filter_append]
      rw [hallsplit, hfiltersplit]
      rcases hex : executeBatchedRequests admin ((emails.drop i).take batchSize) tagsArray
        action with ⟨r, calls⟩
      rw [hex] at hres
      simp only at hres
      by_cases hb : ((emails.drop i).take batchSize).all
          (requestsSucceed admin tagsArray action) = true
      · rw [if_pos hb] at hres
        rw [hres]
        simp only
        rw [ih (i + batchSize) _ _ (by unfold batchSize; omega), hb, Bool.true_and,
          List.append_assoc]
      · rw [if_neg hb] at hres
        rw [hres]
        simp only
        rw [Bool.not_eq_true] at hb
        rw [hb, Bool.false_and]
        simp
    · rw [if_neg hi]
      have hnil : emails.drop i = [] := List.drop_eq_nil_of_le (by omega)
      rw [hnil]
      simp

/-- The requests of the loop from position `i`, in every case: one batch after
the other, the batches cutting the remaining emails into consecutive pieces of
`batchSize` emails (the last piece of the list possibly shorter), up to and
including the first batch in which a request fails; the emails after that batch
are left in `later` and no request is issued for them. -/
theorem handleTagsLoop_issued (admin : Admin) (emails tagsArray : List String)
    (action : TagMutation) (fuel : Nat) :
    ∀ (i : Nat) (failedEmails : List String) (issued : List (List ApiCall)),
      emails.length - i ≤ fuel →
      ∃ (batches : List (List String)) (later : List String),
        batches.flatten ++ later = emails.drop i ∧
        (∀ b ∈ batches, b ≠ [] ∧ b.length ≤ batchSize) ∧
        (∀ b ∈ batches.dropLast,
          b.length = batchSize ∧ b.all (requestsSucceed admin tagsArray action) = true) ∧
        (later ≠ [] → ∀ b ∈ batches, b.length = batchSize) ∧
        ((emails.drop i).all (requestsSucceed admin tagsArray action) = true → later = []) ∧
        ((emails.drop i).all (requestsSucceed admin tagsArray action) = false →
          ∃ last, batches.getLast? = some last ∧
            last.all (requestsSucceed admin tagsArray action) = false) ∧
        (handleTagsLoop admin emails tagsArray action fuel i failedEmails issued).2 =
          issued ++ batches.map fun b =>
            (executeBatchedRequests admin b tagsArray action).2 := by
  induction fuel with
  | zero =>
    intro i failedEmails issued h
    have hnil : emails.drop i = [] := List.drop_eq_nil_of_le (by omega)
    refine ⟨[], [], by rw [hnil]; rfl, by simp, by simp, by simp, fun _ => rfl, ?_, ?_⟩
    · rw [hnil]; simp
    · rw [handleTagsLoop]; simp
  | succ f ih =>
    intro i failedEmails issued h
    rw [handleTagsLoop]
    by_cases hi : i < emails.length
    · rw [if_pos hi]
      simp only
      have hres := executeBatchedRequests_result admin ((emails.drop i).take batchSize)
        tagsArray action
      have hallsplit : (emails.drop i).all (requestsSucceed admin tagsArray action) =
          (((emails.drop i).take batchSize).all (requestsSucceed admin tagsArray action) &&
            (emails.drop (i + batchSize)).all (requestsSucceed admin tagsArray action)) := by
        conv_lhs => rw [drop_split emails i]
        rw [List.all_append]
      have hlen : ((emails.drop i).take batchSize).length =
          min batchSize (emails.length - i) := by
        rw [List.length_take, List.length_drop]
      have hbne : (emails.drop i).take batchSize ≠ [] := by
        intro hnil
        have := congrArg List.length hnil
        rw [hlen] at this
        simp only [List.length_nil] at this
        unfold batchSize at this
        omega
      have hble : ((emails.drop i).take batchSize).length ≤ batchSize := by
        rw [hlen]; exact Nat.min_le_left _ _
      have hfull5 : emails.drop (i + batchSize) ≠ [] →
          ((emails.drop i).take batchSize).length = batchSize := by
        intro hne
        have hlt : i + batchSize < emails.length := by
          by_contra hge
          exact hne (List.drop_eq_nil_of_le (by omega))
        rw [hlen]
        omega
      rcases hex : executeBatchedRequests admin ((emails.drop i).take batchSize) tagsArray
        action with ⟨r, calls⟩
      rw [hex] at hres
      simp only at hres
      by_cases hb : ((emails.drop i).take batchSize).all
          (requestsSucceed admin tagsArray action) = true
      · rw [if_pos hb] at hres
        rw [hres]
        simp only
        obtain ⟨batches, later, hflat, hsize, hdone, hlater, hallok, hfail, htrace⟩ :=
          ih (i + batchSize) (failedEmails ++
            (List.take batchSize (List.drop i emails)).filter
              fun email => !customerFound (lookupValue admin email))
            (issued ++ [calls]) (by unfold batchSize; omega)
        have hrest_ne : batches ≠ [] ∨ later ≠ [] → emails.drop (i + batchSize) ≠ [] := by
          intro hor hnil
          rw [hnil] at hflat
          have h2 := List.append_eq_nil.1 hflat
          rcases hor with hbs | hl
          · obtain ⟨b', bs', hbs'⟩ := List.exists_cons_of_ne_nil hbs
            have hb'nil : b' = [] :=
              List.flatten_eq_nil_iff.1 h2.1 b' (by rw [hbs']; exact List.mem_cons_self _ _)
            exact (hsize b' (by rw [hbs']; exact List.mem_cons_self _ _)).1 hb'nil
          · exact hl h2.2
        refine ⟨(emails.drop i).take batchSize :: batches, later, ?_, ?_, ?_, ?_, ?_, ?_, ?_⟩
        · rw [List.flatten_cons, List.append_assoc, hflat]
          exact (drop_split emails i).symm
        · intro b hbm
          rcases List.mem_cons.1 hbm with hbm | hbm
          · rw [hbm]; exact ⟨hbne, hble⟩
          · exact hsize b hbm
        · intro b hbm
          cases hbs : batches with
          | nil => rw [hbs] at hbm; simp at hbm
          | cons b' bs' =>
            rw [hbs, List.dropLast_cons_of_ne_nil (List.cons_ne_nil _ _)] at hbm
            rcases List.mem_cons.1 hbm with hbm | hbm
            · rw [hbm]
              exact ⟨hfull5 (hrest_ne (Or.inl (by rw [hbs]; exact List.cons_ne_nil _ _))), hb⟩
            · apply hdone
              rw [hbs]
              exact hbm
        · intro hl b hbm
          rcases List.mem_cons.1 hbm with hbm | hbm
          · rw [hbm]; exact hfull5 (hrest_ne (Or.inr hl))
          · exact hlater hl b hbm
        · intro hall
          rw [hallsplit, Bool.and_eq_true] at hall
          exact hallok hall.2
        · intro hall
          rw [hallsplit, hb, Bool.true_and] at hall
          obtain ⟨last, hlast, hlastfail⟩ := hfail hall
          refine ⟨last, ?_, hlastfail⟩
          cases hbs : batches with
          | nil => rw [hbs] at hlast; cases hlast
          | cons b' bs' =>
            rw [List.getLast?_cons_cons, ← hbs]
            exact hlast
        · rw [htrace, List.map_cons, hex, List.append_assoc]
          rfl
      · rw [if_neg hb] at hres
        rw [hres]
        simp only
        rw [Bool.not_eq_true] at hb
        refine ⟨[(emails.drop i).take batchSize], emails.drop (i + batchSize), ?_, ?_, ?_, ?_,
          ?_, ?_, ?_⟩
        · rw [List.flatten_cons, List.flatten_nil, List.append_nil]
          exact (drop_split emails i).symm
        · intro b hbm
          rw [List.mem_singleton] at hbm
          rw [hbm]; exact ⟨hbne, hble⟩
        · intro b hbm
          simp at hbm
        · intro hl b hbm
          rw [List.mem_singleton] at hbm
          rw [hbm]; exact hfull5 hl
        · intro hall
          rw [hallsplit, hb, Bool.false_and] at hall
          cases hall
        · intro _
          exact ⟨_, List.getLast?_singleton _, hb⟩
        · rw [List.map_cons, List.map_nil, hex]
    · rw [if_neg hi]
      have hnil : emails.drop i = [] := List.drop_eq_nil_of_le (by omega)
      refine ⟨[], [], by rw [hnil]; rfl, by simp, by simp, by simp, fun _ => rfl, ?_, ?_⟩
      · rw [hnil]; simp
      · simp

/-- C22, as the claim states it, fails: with six emails whose lookups all
succeed and find a customer, a failing tag mutation makes `handleTags` raise
after the first batch; nothing is returned and the sixth email is never looked
up. -/
theorem handleTags_counterexample :
    (∀ email : String, ∃ v, (sampleAdmin [] true).customerIdByEmail email = Except.ok v) ∧
    (handleTags (sampleAdmin [] true) ["a", "b", "c", "d", "e", "f"] ["vip"]
        TagMutation.addTagsToCustomer).1 =
      Except.error "An error occurred during the request execution." ∧
    (handleTags (sampleAdmin [] true) ["a", "b", "c", "d", "e", "f"] ["vip"]
        TagMutation.addTagsToCustomer).2.flatMap lookedUp = ["a", "b", "c", "d", "e"] :=
  ⟨fun _ => ⟨_, rfl⟩, rfl, by decide⟩

/-- C22, amended. Batching is transparent in `handleTags`: in every case it
returns or raises what a single unbatched pass over all emails does, and the
bound on its loop never cuts the loop short.  In every case the requests it
issues are those of the batches of five consecutive emails (the last batch of
the list possibly shorter), one batch after the other, up to and including the
first batch in which a lookup or a mutation fails: then it raises, and the
emails of the later batches are not looked up.  When no customer lookup and no
tag mutation fails, the batches cover the whole list, each email is looked up
exactly once and in input order, and the returned list is exactly the sub-list
of the emails whose lookup found no customer, in input order. -/
theorem handleTags_batching (admin : Admin) (emails tagsArray : List String)
    (action : TagMutation) :
    (handleTags admin emails tagsArray action).1 =
      (executeBatchedRequests admin emails tagsArray action).1 ∧
    (∀ fuel : Nat, emails.length ≤ fuel →
      handleTagsLoop admin emails tagsArray action fuel 0 [] [] =
        handleTags admin emails tagsArray action) ∧
    (∃ (batches : List (List String)) (later : List String),
      batches.flatten ++ later = emails ∧
      (∀ b ∈ batches, b ≠ [] ∧ b.length ≤ 5) ∧
      (∀ b ∈ batches.dropLast,
        b.length = 5 ∧ b.all (requestsSucceed admin tagsArray action) = true) ∧
      (later ≠ [] → ∀ b ∈ batches, b.length = 5) ∧
      (emails.all (requestsSucceed admin tagsArray action) = true → later = []) ∧
      (emails.all (requestsSucceed admin tagsArray action) = false →
        (handleTags admin emails tagsArray action).1 = Except.error requestExecutionError ∧
        ∃ last, batches.getLast? = some last ∧
          last.all (requestsSucceed admin tagsArray action) = false) ∧
      (handleTags admin emails tagsArray action).2 =
        batches.map (fun b => (executeBatchedRequests admin b tagsArray action).2) ∧
      (handleTags admin emails tagsArray action).2.map lookedUp = batches ∧
      (handleTags admin emails tagsArray action).2.flatMap lookedUp ++ later = emails) ∧
    ((∀ email ∈ emails, ∃ v, admin.customerIdByEmail email = Except.ok v) →
      (∀ email ∈ emails, ∀ customerId : String,
        admin.customerIdByEmail email = Except.ok (some customerId) →
        ∃ u, admin.applyMutation action customerId tagsArray = Except.ok u) →
      (handleTags admin emails tagsArray action).1 =
          Except.ok (emails.filter fun email => !customerFound (lookupValue admin email)) ∧
        ∃ batches : List (List String),
          batches.flatten = emails ∧
          (∀ b ∈ batches, b ≠ [] ∧ b.length ≤ 5) ∧
          (∀ b ∈ batches.dropLast, b.length = 5) ∧
          (handleTags admin emails tagsArray action).2.map lookedUp = batches ∧
          (handleTags admin emails tagsArray action).2.flatMap lookedUp = emails) := by
  have hres := handleTagsLoop_result admin emails tagsArray action emails.length 0 [] []
    (by omega)
  rw [List.drop_zero, List.nil_append] at hres
  obtain ⟨batches, later, hflat, hsize, hdone, hlater, hallok, hfail, htrace⟩ :=
    handleTagsLoop_issued admin emails tagsArray action emails.length 0 [] [] (by omega)
  rw [List.drop_zero] at hflat hallok hfail
  rw [List.nil_append] at htrace
  have htrace' : (handleTags admin emails tagsArray action).2 =
      batches.map (fun b => (executeBatchedRequests admin b tagsArray action).2) := htrace
  have hmap : (handleTags admin emails tagsArray action).2.map lookedUp = batches := by
    rw [htrace', List.map_map]
    have : (lookedUp ∘ fun b => (executeBatchedRequests admin b tagsArray action).2) =
        id := by
      funext b
      exact lookedUp_executeBatchedRequests admin b tagsArray action
    rw [this, List.map_id]
  have hflatMap : (handleTags admin emails tagsArray action).2.flatMap lookedUp =
      batches.flatten := by
    rw [List.flatMap_def, hmap]
  refine ⟨?_, ?_, ?_, ?_⟩
  · unfold handleTags
    rw [hres, executeBatchedRequests_result]
  · intro fuel hfuel
    unfold handleTags
    exact handleTagsLoop_fuel admin emails tagsArray action fuel emails.length 0 [] []
      (by omega) (by omega)
  · refine ⟨batches, later, hflat, hsize, hdone, hlater, hallok, ?_, htrace', hmap, ?_⟩
    · intro hall
      refine ⟨?_, hfail hall⟩
      unfold handleTags
      rw [hres, hall]
      rfl
    · rw [hflatMap, hflat]
  · intro hlookup hmutation
    have hall : emails.all (requestsSucceed admin tagsArray action) = true := by
      rw [List.all_eq_true]
      intro email hemail
      obtain ⟨v, hv⟩ := hlookup email hemail
      unfold requestsSucceed
      rw [hv]
      cases v with
      | none => rfl
      | some customerId =>
        simp only
        split_ifs
        · obtain ⟨u, hu⟩ := hmutation email hemail customerId hv
          rw [hu]
        · rfl
    have hlnil := hallok hall
    rw [hlnil, List.append_nil] at hflat
    constructor
    · unfold handleTags
      rw [hres, if_pos hall]
    · exact ⟨batches, hflat, hsize, fun b hb => (hdone b hb).1, hmap, by rw [hflatMap, hflat]⟩

/-- Seven emails, two of them unknown: two batches, of five and of two emails,
every email looked up once, and the two unknown emails returned.  With six
emails and failing mutations the call raises. -/
theorem handleTags_batching_witness :
    (handleTags (sampleAdmin ["b", "g"] false) ["a", "b", "c", "d", "e", "f", "g"] ["vip"]
        TagMutation.addTagsToCustomer).1 = Except.ok ["b", "g"] ∧
    (handleTags (sampleAdmin ["b", "g"] false) ["a", "b", "c", "d", "e", "f", "g"] ["vip"]
        TagMutation.addTagsToCustomer).2.map lookedUp =
      [["a", "b", "c", "d", "e"], ["f", "g"]] ∧
    (handleTags (sampleAdmin ["b", "g"] false) ["a", "b", "c", "d", "e", "f", "g"] ["vip"]
        TagMutation.addTagsToCustomer).1 =
      Except.ok (["a", "b", "c", "d", "e", "f", "g"].filter fun email =>
        !customerFound (lookupValue (sampleAdmin ["b", "g"] false) email)) ∧
    (handleTags (sampleAdmin [] true) ["a", "b", "c", "d", "e", "f"] ["vip"]
        TagMutation.addTagsToCustomer).1 = Except.error requestExecutionError := by
  refine ⟨rfl, by decide,
    ((handleTags_batching (sampleAdmin ["b", "g"] false) ["a", "b", "c", "d", "e", "f", "g"]
      ["vip"] TagMutation.addTagsToCustomer).2.2.2
      (fun _ _ => ⟨_, rfl⟩) (fun _ _ _ _ => ⟨_, rfl⟩)).1, ?_⟩
  obtain ⟨_, _, _, _, _, _, _, hfail, _⟩ :=
    (handleTags_batching (sampleAdmin [] true) ["a", "b", "c", "d", "e", "f"] ["vip"]
      TagMutation.addTagsToCustomer).2.2.1
  exact (hfail (by decide)).1

end CustomerTagging

namespace CollectionLimitEditor

/-! ## Unique collection identifiers -/

theorem collectionIds_handleQuantityChange (updatedCollections : Collections)
    (newQuantity collectionId : String) :
    collectionIds (handleQuantityChange updatedCollections newQuantity collectionId) =
      collectionIds updatedCollections := by
  unfold collectionIds handleQuantityChange
  rw [List.map_map]
  apply List.map_congr_left
  intro entry _
  simp only [Function.comp]
  split_ifs <;> rfl

theorem nodup_handleAddCollection (updatedCollections : Collections)
    (h : (collectionIds updatedCollections).Nodup) (picked : Option String) :
    (collectionIds (handleAddCollection updatedCollections updatedCollections picked)).Nodup := by
  unfold handleAddCollection
  cases picked with
  | none => exact h
  | some newCollectionId =>
    simp only
    split_ifs with hex
    · exact h
    · unfold collectionIds at h ⊢
      rw [List.map_append, List.map_cons, List.map_nil, List.nodup_append]
      refine ⟨h, List.nodup_singleton _, ?_⟩
      intro a ha hb
      rw [List.mem_singleton] at hb
      rw [List.mem_map] at ha
      obtain ⟨entry, hentry, hid⟩ := ha
      apply hex
      rw [List.any_eq_true]
      exact ⟨entry, hentry, decide_eq_true (hid.trans hb)⟩

theorem nodup_handleRemoveCollection (updatedCollections : Collections)
    (h : (collectionIds updatedCollections).Nodup) (collectionToRemove : String) :
    (collectionIds (handleRemoveCollection updatedCollections collectionToRemove)).Nodup := by
  unfold collectionIds handleRemoveCollection at *
  exact h.sublist ((List.filter_sublist _).map _)

/-- With unique identifiers, the limit the validator reads for the collection of
an entry is the one that entry states. -/
theorem specLimit_of_nodup (mapping : Collections) (h : (collectionIds mapping).Nodup)
    (entry : CartValidation.MappingEntry) (hentry : entry ∈ mapping) :
    CartValidation.specLimit mapping entry.collection =
      CartValidation.declaredLimit entry.qty := by
  obtain ⟨before, after, hsplit⟩ := List.append_of_mem hentry
  have hlast : ∀ e' ∈ after, e'.collection ≠ entry.collection := by
    intro e' he' heq
    rw [hsplit] at h
    unfold collectionIds at h
    rw [List.map_append, List.map_cons] at h
    have h2 := (List.nodup_append.1 h).2.1
    rw [List.nodup_cons] at h2
    exact h2.1 (List.mem_map.2 ⟨e', he', heq⟩)
  unfold CartValidation.specLimit
  rw [hsplit, CartValidation.find?_reverse_last before after entry hlast]

/-- Handlers that test the list they update keep the identifiers unique: if no
two entries of `updatedCollections` have the same collection identifier, then
after `handleAddCollection` whose closure holds that same list (for any picked
identifier, or none), after `handleQuantityChange` and after
`handleRemoveCollection` no two entries have the same identifier; and in a
mapping with unique identifiers the limit the validator reads for the
collection of an entry is the limit that entry states. -/
theorem handlers_on_current_state_keep_ids_unique (updatedCollections : Collections)
    (h : (collectionIds updatedCollections).Nodup) :
    (∀ picked : Option String,
      (collectionIds
        (handleAddCollection updatedCollections updatedCollections picked)).Nodup) ∧
    (∀ newQuantity collectionId : String,
      (collectionIds (handleQuantityChange updatedCollections newQuantity collectionId)).Nodup) ∧
    (∀ collectionToRemove : String,
      (collectionIds (handleRemoveCollection updatedCollections collectionToRemove)).Nodup) ∧
    (∀ entry ∈ updatedCollections,
      CartValidation.specLimit updatedCollections entry.collection =
        CartValidation.declaredLimit entry.qty) := by
  refine ⟨nodup_handleAddCollection _ h, ?_, nodup_handleRemoveCollection _ h,
    fun entry hentry => specLimit_of_nodup _ h entry hentry⟩
  intro newQuantity collectionId
  rw [collectionIds_handleQuantityChange]; exact h

/-- C23, a run of the editor that ends with a duplicate identifier: the list is
the single entry for `C1`; "Add Collection ID" is clicked twice before either
picker answers, so both handlers hold the list `[C1]`; both pickers return
`C2`.  The first answer appends `C2`; the second handler tests its own list
`[C1]`, finds no `C2`, and appends `C2` again to the current list. -/
theorem handleAddCollection_stale_closure_duplicates :
    (collectionIds [⟨"C1", CartValidation.Qty.str "5"⟩]).Nodup ∧
    handleAddCollection [⟨"C1", CartValidation.Qty.str "5"⟩]
        [⟨"C1", CartValidation.Qty.str "5"⟩] (some "C2") =
      [⟨"C1", CartValidation.Qty.str "5"⟩, ⟨"C2", CartValidation.Qty.str "0"⟩] ∧
    handleAddCollection [⟨"C1", CartValidation.Qty.str "5"⟩]
        [⟨"C1", CartValidation.Qty.str "5"⟩, ⟨"C2", CartValidation.Qty.str "0"⟩] (some "C2") =
      [⟨"C1", CartValidation.Qty.str "5"⟩, ⟨"C2", CartValidation.Qty.str "0"⟩,
        ⟨"C2", CartValidation.Qty.str "0"⟩] ∧
    [EditorEvent.pickerAnswered [⟨"C1", CartValidation.Qty.str "5"⟩] (some "C2"),
        EditorEvent.pickerAnswered [⟨"C1", CartValidation.Qty.str "5"⟩] (some "C2")].foldl
        handle [⟨"C1", CartValidation.Qty.str "5"⟩] =
      [⟨"C1", CartValidation.Qty.str "5"⟩, ⟨"C2", CartValidation.Qty.str "0"⟩,
        ⟨"C2", CartValidation.Qty.str "0"⟩] ∧
    ¬ (collectionIds [⟨"C1", CartValidation.Qty.str "5"⟩, ⟨"C2", CartValidation.Qty.str "0"⟩,
        ⟨"C2", CartValidation.Qty.str "0"⟩]).Nodup := by
  decide

end CollectionLimitEditor
